import Mathlib

/-!
Verification of mdok's metrics-derivation and session-management engine.

This file shallowly embeds the core logic of the mdok container-monitoring
tool (stats.go, the rate/classification logic of docker.go, and the session
logic of output.go) and proves the frozen claims about it.

Modelling conventions:
* Go `float64` values are modelled as `ℚ` (exact rational arithmetic);
  float literals such as `0.95` denote the decimal rationals they print as.
* Go `uint64` values are modelled as `ℕ`; where Go wraparound subtraction
  matters it is made explicit via `u64Sub` (reduction modulo `2 ^ 64`).
* Go `int`/`int64` values are modelled as `ℤ` (or `ℕ` for values that are
  counts by construction).
* `time.Time` is modelled as a rational number of seconds; `t2.Sub(t1)`
  becomes subtraction, and `time.Duration(n) * time.Second` becomes the
  rational `n`.
* Fallible functions (Go functions returning `nil` pointers) return
  `Option`.
* String formatting (`fmt.Sprintf`) is dropped: warning messages are
  modelled as a tagged `Warning` type carrying the formatted quantities,
  and recommendation reason strings keep only their constant prefix.

The repository ships several revisions of some files concatenated together;
where two revisions of a function exist (docker.go's classifier helpers),
the embedding follows the revision actually referenced by `CollectStats`
(the two-pass `getContainerIPs` collecting proxy addresses system-wide).
The current revision of types.go's `Sample` struct is not included in the
sources, so its byte-classification fields (`NetBytesInterContainer` etc.)
are reconstructed from their uses in stats.go and docker.go.
-/

namespace Mdok

/-- types.go `Summary`: per-metric aggregate. The unused `Total` field
(never written anywhere in the repository) is omitted. -/
structure Summary where
  Min : ℚ
  Max : ℚ
  Avg : ℚ
  P95 : ℚ
  P99 : ℚ
deriving DecidableEq

instance : Inhabited Summary := ⟨⟨0, 0, 0, 0, 0⟩⟩

/-- types.go `NetworkBreakdown`: estimated traffic distribution. -/
structure NetworkBreakdown where
  InterContainerPct : ℚ
  InternalPct : ℚ
  InternetPct : ℚ
deriving DecidableEq

/-- types.go `Sample` (current revision): one metric snapshot.
Fields are in source order; the `NetBytesSource` provenance string is
omitted (it is never read by the logic under verification). -/
structure Sample where
  Timestamp : ℚ
  CPUPercent : ℚ
  MemoryUsage : ℕ
  MemoryPercent : ℚ
  MemoryCache : ℕ
  NetRxBytes : ℕ
  NetTxBytes : ℕ
  NetRxRate : ℚ
  NetTxRate : ℚ
  BlockRead : ℕ
  BlockWrite : ℕ
  BlockReadRate : ℚ
  BlockWriteRate : ℚ
  PidsCount : ℕ
  NetConnInterContainer : ℕ
  NetConnInternal : ℕ
  NetConnInternet : ℕ
  NetBytesInterContainer : ℕ
  NetBytesInternal : ℕ
  NetBytesInternet : ℕ
deriving DecidableEq

/-- Go's zero value for `Sample`. -/
def zeroSample : Sample :=
  ⟨0, 0, 0, 0, 0, 0, 0, 0, 0, 0, 0, 0, 0, 0, 0, 0, 0, 0, 0, 0⟩

instance : Inhabited Sample := ⟨zeroSample⟩

/-- types.go `ContainerLimits`. -/
structure ContainerLimits where
  CPUQuota : ℤ
  CPUPeriod : ℤ
  CPUShares : ℤ
  MemLimit : ℕ
  MemSwap : ℤ
  PidsLimit : ℤ
deriving DecidableEq

/-- types.go `ContainerSummary`: all aggregates for a container.
The presentation-only `Duration` and `Warnings` string fields are omitted
(warnings are produced separately by `DetectWarnings`). -/
structure ContainerSummary where
  CPUPercent : Summary
  MemoryUsage : Summary
  MemoryPercent : Summary
  NetRxRate : Summary
  NetTxRate : Summary
  NetRxTotal : ℕ
  NetTxTotal : ℕ
  BlockRead : Summary
  BlockWrite : Summary
  BlockReadTotal : ℕ
  BlockWriteTotal : ℕ
  PidsCount : Summary
  SampleCount : ℕ
  NetworkBreakdown : Option NetworkBreakdown
deriving DecidableEq

/-- types.go `ContainerData`, restricted to the fields the verified logic
reads (identity strings, host info and cached cost/recommendation are
presentation-only). `Interval` is the declared polling interval in
seconds. -/
structure ContainerData where
  Limits : ContainerLimits
  Interval : ℤ
  Samples : List Sample
  Summary : Option ContainerSummary

/-- stats.go `percentile`: the p-th percentile of a sorted slice, by rank
`p * (n - 1)` with linear interpolation between the two bracketing sorted
values. Out-of-range indexing cannot occur in the source; `getD _ 0`
mirrors Go slice indexing totally. -/
def percentile (sorted : List ℚ) (p : ℚ) : ℚ :=
  if sorted.length = 0 then 0
  else if sorted.length = 1 then sorted.getD 0 0
  else
    let rank : ℚ := p * ((sorted.length : ℚ) - 1)
    let lower : ℤ := ⌊rank⌋
    let upper : ℤ := ⌈rank⌉
    if lower = upper then sorted.getD lower.toNat 0
    else
      let weight : ℚ := rank - (lower : ℚ)
      sorted.getD lower.toNat 0 * (1 - weight) + sorted.getD upper.toNat 0 * weight

/-- stats.go `calculateStats`: min, max, avg, p95, p99 of a value list.
`sort.Float64s` (an ascending comparison sort) is modelled by
`List.insertionSort (· ≤ ·)`. -/
def calculateStats (values : List ℚ) : Summary :=
  if values.length = 0 then ⟨0, 0, 0, 0, 0⟩
  else
    let sorted := List.insertionSort (· ≤ ·) values
    let mn := sorted.getD 0 0
    let mx := sorted.getD (sorted.length - 1) 0
    let avg := values.sum / (values.length : ℚ)
    let p95 := percentile sorted 0.95
    let p99 := percentile sorted 0.99
    ⟨mn, mx, avg, p95, p99⟩

/-- Accumulator of the network-breakdown loop in stats.go
`CalculateSummary` (the eight local variables of the loop). -/
structure BreakdownAcc where
  totalBytesInterContainer : ℕ
  totalBytesInternal : ℕ
  totalBytesInternet : ℕ
  totalConnInterContainer : ℕ
  totalConnInternal : ℕ
  totalConnInternet : ℕ
  samplesWithBytes : ℕ
  samplesWithConnections : ℕ

/-- One iteration of the breakdown-accumulation loop in
`CalculateSummary`. -/
def breakdownStep (acc : BreakdownAcc) (s : Sample) : BreakdownAcc :=
  let totalBytes := s.NetBytesInterContainer + s.NetBytesInternal + s.NetBytesInternet
  let acc1 :=
    if totalBytes > 0 then
      { acc with
        totalBytesInterContainer := acc.totalBytesInterContainer + s.NetBytesInterContainer
        totalBytesInternal := acc.totalBytesInternal + s.NetBytesInternal
        totalBytesInternet := acc.totalBytesInternet + s.NetBytesInternet
        samplesWithBytes := acc.samplesWithBytes + 1 }
    else acc
  let totalConns := s.NetConnInterContainer + s.NetConnInternal + s.NetConnInternet
  if totalConns > 0 then
    { acc1 with
      totalConnInterContainer := acc1.totalConnInterContainer + s.NetConnInterContainer
      totalConnInternal := acc1.totalConnInternal + s.NetConnInternal
      totalConnInternet := acc1.totalConnInternet + s.NetConnInternet
      samplesWithConnections := acc1.samplesWithConnections + 1 }
  else acc1

/-- stats.go `CalculateSummary`: summary statistics from samples.
Returns `none` on an empty sample list (the Go function returns `nil`). -/
def CalculateSummary (samples : List Sample) : Option ContainerSummary :=
  if samples.length = 0 then none
  else
    let firstSample := samples.getD 0 zeroSample
    let lastSample := samples.getD (samples.length - 1) zeroSample
    let acc := samples.foldl breakdownStep ⟨0, 0, 0, 0, 0, 0, 0, 0⟩
    let networkBreakdown : Option NetworkBreakdown :=
      if acc.samplesWithBytes > 0 ∧
          acc.totalBytesInterContainer + acc.totalBytesInternal + acc.totalBytesInternet > 0 then
        let totalBytes : ℚ :=
          ((acc.totalBytesInterContainer + acc.totalBytesInternal + acc.totalBytesInternet : ℕ) : ℚ)
        some ⟨(acc.totalBytesInterContainer : ℚ) / totalBytes * 100,
              (acc.totalBytesInternal : ℚ) / totalBytes * 100,
              (acc.totalBytesInternet : ℚ) / totalBytes * 100⟩
      else if acc.samplesWithConnections > 0 ∧
          acc.totalConnInterContainer + acc.totalConnInternal + acc.totalConnInternet > 0 then
        let totalConns : ℚ :=
          ((acc.totalConnInterContainer + acc.totalConnInternal + acc.totalConnInternet : ℕ) : ℚ)
        some ⟨(acc.totalConnInterContainer : ℚ) / totalConns * 100,
              (acc.totalConnInternal : ℚ) / totalConns * 100,
              (acc.totalConnInternet : ℚ) / totalConns * 100⟩
      else none
    some
      { CPUPercent := calculateStats (samples.map (·.CPUPercent))
        MemoryUsage := calculateStats (samples.map (fun s => (s.MemoryUsage : ℚ)))
        MemoryPercent := calculateStats (samples.map (·.MemoryPercent))
        NetRxRate := calculateStats (samples.map (·.NetRxRate))
        NetTxRate := calculateStats (samples.map (·.NetTxRate))
        NetRxTotal :=
          if lastSample.NetRxBytes ≥ firstSample.NetRxBytes then
            lastSample.NetRxBytes - firstSample.NetRxBytes
          else lastSample.NetRxBytes
        NetTxTotal :=
          if lastSample.NetTxBytes ≥ firstSample.NetTxBytes then
            lastSample.NetTxBytes - firstSample.NetTxBytes
          else lastSample.NetTxBytes
        BlockRead := calculateStats (samples.map (·.BlockReadRate))
        BlockWrite := calculateStats (samples.map (·.BlockWriteRate))
        BlockReadTotal :=
          if lastSample.BlockRead ≥ firstSample.BlockRead then
            lastSample.BlockRead - firstSample.BlockRead
          else lastSample.BlockRead
        BlockWriteTotal :=
          if lastSample.BlockWrite ≥ firstSample.BlockWrite then
            lastSample.BlockWrite - firstSample.BlockWrite
          else lastSample.BlockWrite
        PidsCount := calculateStats (samples.map (fun s => (s.PidsCount : ℚ)))
        SampleCount := samples.length
        NetworkBreakdown := networkBreakdown }

/-- Warning messages produced by stats.go `DetectWarnings`, as a tagged
type. Each constructor stands for one distinct message string; the
quantities interpolated into messages by `fmt.Sprintf` are carried as
payloads. -/
inductive Warning where
  | oomRisk
  | memP95AboveLimit
  | highMemNoLimit
  | cpuP95High
  | cpuThrottle
  | cpuNearQuota (cpuLimitPct : ℚ)
  | highEgress (gb : ℚ)
  | pidsNearLimit
deriving DecidableEq

/-- stats.go `DetectWarnings`: rule-based scan of the summary and limits.
The appended blocks are in source order. -/
def DetectWarnings (data : ContainerData) : List Warning :=
  match data.Summary with
  | none => []
  | some s =>
    let memW : List Warning :=
      if data.Limits.MemLimit > 0 then
        let memLimitBytes : ℚ := (data.Limits.MemLimit : ℚ)
        if s.MemoryUsage.Max ≥ memLimitBytes * 0.95 then [.oomRisk]
        else if s.MemoryUsage.P95 ≥ memLimitBytes * 0.80 then [.memP95AboveLimit]
        else []
      else []
    let noLimitW : List Warning :=
      if data.Limits.MemLimit = 0 ∧ s.MemoryPercent.P95 > 80 then [.highMemNoLimit] else []
    let cpuW1 : List Warning := if s.CPUPercent.P95 > 90 then [.cpuP95High] else []
    let cpuW2 : List Warning := if s.CPUPercent.Max ≥ 100 then [.cpuThrottle] else []
    let quotaW : List Warning :=
      if data.Limits.CPUQuota > 0 ∧ data.Limits.CPUPeriod > 0 then
        let cpuLimit : ℚ := (data.Limits.CPUQuota : ℚ) / (data.Limits.CPUPeriod : ℚ) * 100
        if s.CPUPercent.P95 ≥ cpuLimit * 0.90 then [.cpuNearQuota cpuLimit] else []
      else []
    let egressW : List Warning :=
      if s.NetTxTotal > 10 * 1024 * 1024 * 1024 then
        [.highEgress ((s.NetTxTotal : ℚ) / (1024 * 1024 * 1024))]
      else []
    let pidsW : List Warning :=
      if data.Limits.PidsLimit > 0 then
        let pidsLimit : ℚ := (data.Limits.PidsLimit : ℚ)
        if s.PidsCount.Max ≥ pidsLimit * 0.90 then [.pidsNearLimit] else []
      else []
    memW ++ noLimitW ++ cpuW1 ++ cpuW2 ++ quotaW ++ egressW ++ pidsW

/-- stats.go `InstanceType` (catalog entry). The `Type` field is renamed
`instType` (`Type` is reserved in Lean). -/
structure InstanceType where
  instType : String
  VCPU : ℕ
  MemoryGB : ℚ
  Hourly : ℚ
  Arch : String
deriving DecidableEq

/-- stats.go `awsInstanceTypes`: the fixed, ordered instance catalog. -/
def awsInstanceTypes : List InstanceType := [
  ⟨"t3.micro", 2, 1, 0.0104, "x86"⟩,
  ⟨"t3.small", 2, 2, 0.0208, "x86"⟩,
  ⟨"t3.medium", 2, 4, 0.0416, "x86"⟩,
  ⟨"t3.large", 2, 8, 0.0832, "x86"⟩,
  ⟨"t3.xlarge", 4, 16, 0.1664, "x86"⟩,
  ⟨"m5.large", 2, 8, 0.096, "x86"⟩,
  ⟨"m5.xlarge", 4, 16, 0.192, "x86"⟩,
  ⟨"m5.2xlarge", 8, 32, 0.384, "x86"⟩,
  ⟨"c5.large", 2, 4, 0.085, "x86"⟩,
  ⟨"c5.xlarge", 4, 8, 0.17, "x86"⟩,
  ⟨"c5.2xlarge", 8, 16, 0.34, "x86"⟩,
  ⟨"r5.large", 2, 16, 0.126, "x86"⟩,
  ⟨"r5.xlarge", 4, 32, 0.252, "x86"⟩,
  ⟨"t4g.micro", 2, 1, 0.0084, "arm"⟩,
  ⟨"t4g.small", 2, 2, 0.0168, "arm"⟩,
  ⟨"t4g.medium", 2, 4, 0.0336, "arm"⟩,
  ⟨"t4g.large", 2, 8, 0.0672, "arm"⟩,
  ⟨"t4g.xlarge", 4, 16, 0.1344, "arm"⟩,
  ⟨"m7g.large", 2, 8, 0.0816, "arm"⟩,
  ⟨"m7g.xlarge", 4, 16, 0.1632, "arm"⟩,
  ⟨"m7g.2xlarge", 8, 32, 0.3264, "arm"⟩,
  ⟨"c7g.large", 2, 4, 0.0725, "arm"⟩,
  ⟨"c7g.xlarge", 4, 8, 0.145, "arm"⟩,
  ⟨"c7g.2xlarge", 8, 16, 0.29, "arm"⟩,
  ⟨"r7g.large", 2, 16, 0.1008, "arm"⟩,
  ⟨"r7g.xlarge", 4, 32, 0.2016, "arm"⟩]

/-- types.go `InstanceRecommendation`. The `Reason` string keeps only the
constant prefix of the formatted Go message. -/
structure InstanceRecommendation where
  InstanceType : String
  VCPU : ℕ
  MemoryGB : ℚ
  Reason : String
  HourlyPrice : ℚ
  Architecture : String
deriving DecidableEq

/-- The resource check of the selection loop in stats.go
`RecommendInstance`: `float64(inst.VCPU) >= requiredCPU && inst.MemoryGB
>= requiredMemGB`. -/
def instQualifies (requiredCPU requiredMemGB : ℚ) (inst : InstanceType) : Bool :=
  decide ((inst.VCPU : ℚ) ≥ requiredCPU) && decide (inst.MemoryGB ≥ requiredMemGB)

/-- stats.go `RecommendInstance`. The Go loop scans `awsInstanceTypes` in
order, skipping entries of the other architecture, returns at the first
entry passing the resource check, and tracks the most recent same-
architecture entry in `lastOfArch` (per-iteration loop-variable scoping);
this is the `find?` over the architecture-filtered catalog with
`getLast?` as the fallback. -/
def RecommendInstance (summary : Option ContainerSummary) (arch : String) :
    Option InstanceRecommendation :=
  match summary with
  | none => none
  | some s =>
    let requiredCPU := s.CPUPercent.P95 / 100 * 1.2
    let requiredMemGB := s.MemoryUsage.P95 / (1024 * 1024 * 1024) * 1.2
    let ofArch := awsInstanceTypes.filter (fun i => i.Arch == arch)
    match ofArch.find? (instQualifies requiredCPU requiredMemGB) with
    | some inst =>
      let reason :=
        if s.CPUPercent.P95 > s.MemoryPercent.P95 then "CPU-bound workload"
        else "Memory-bound workload"
      some ⟨inst.instType, inst.VCPU, inst.MemoryGB, reason, inst.Hourly, arch⟩
    | none =>
      match ofArch.getLast? with
      | some inst =>
        some ⟨inst.instType, inst.VCPU, inst.MemoryGB,
          "Resource requirements exceed common instance sizes", inst.Hourly, arch⟩
      | none => none

/-- output.go `SessionInfo`, restricted to the fields `splitIntoSessions`
populates. `SessionID` is the Unix time of the session start (the Go code
renders it in decimal; the formatting is dropped). -/
structure SessionInfo where
  SessionID : ℤ
  StartTime : ℚ
  EndTime : ℚ
  SampleCount : ℕ
deriving DecidableEq

/-- Timestamp of sample `i` of `data` (Go `data.Samples[i].Timestamp`). -/
def tsOf (data : ContainerData) (i : ℕ) : ℚ :=
  (data.Samples.getD i zeroSample).Timestamp

/-- The `SessionInfo` value built by output.go for the sample index range
`[startIdx, endIdx]`. -/
def mkSession (data : ContainerData) (startIdx endIdx : ℕ) : SessionInfo :=
  ⟨⌊tsOf data startIdx⌋, tsOf data startIdx, tsOf data endIdx, endIdx + 1 - startIdx⟩

/-- Session gap threshold of output.go: `time.Duration(data.Interval*2+5)
* time.Second`, in seconds. -/
def maxGapOf (data : ContainerData) : ℚ := ((data.Interval * 2 + 5 : ℤ) : ℚ)

/-- The loop of output.go `splitIntoSessions`, as structural recursion on
the number of remaining iterations: `i` is the loop index (from 1 to
`n - 1`), `sessionStart` the index starting the current session, and a
session is emitted whenever the timestamp gap to the previous sample
exceeds `maxGap`; the final session is emitted when the loop ends. -/
def splitGo (data : ContainerData) (maxGap : ℚ) : ℕ → ℕ → ℕ → List SessionInfo
  | 0, _i, sessionStart => [mkSession data sessionStart (data.Samples.length - 1)]
  | fuel + 1, i, sessionStart =>
    if tsOf data i - tsOf data (i - 1) > maxGap then
      mkSession data sessionStart (i - 1) :: splitGo data maxGap fuel (i + 1) i
    else
      splitGo data maxGap fuel (i + 1) sessionStart

/-- output.go `splitIntoSessions`: split container data into sessions
based on time gaps. -/
def splitIntoSessions (data : ContainerData) : List SessionInfo :=
  if data.Samples.length = 0 then []
  else splitGo data (maxGapOf data) (data.Samples.length - 1) 1 0

/-- The descending scan of output.go `filterToCurrentSession`: starting
from index `n - 1` and walking down to 1, return the first (largest)
index whose gap to the previous sample exceeds `maxGap`, else 0. -/
def findSessionStart (data : ContainerData) (maxGap : ℚ) : ℕ → ℕ
  | 0 => 0
  | i + 1 =>
    if tsOf data (i + 1) - tsOf data i > maxGap then i + 1
    else findSessionStart data maxGap i

/-- The sample range selected by output.go `filterToCurrentSession` (the
function then rebuilds the `ContainerData` around this range and
recomputes its summary and cost, which is presentation plumbing). When no
gap is found (`sessionStartIdx = 0`) the data is returned unchanged. -/
def filterToCurrentSessionSamples (data : ContainerData) : List Sample :=
  if data.Samples.length = 0 then data.Samples
  else
    let sessionStartIdx := findSessionStart data (maxGapOf data) (data.Samples.length - 1)
    if sessionStartIdx > 0 then data.Samples.drop sessionStartIdx else data.Samples

/-- docker.go `StatsResult` (the `Error` field is omitted). -/
structure StatsResult where
  Sample : Mdok.Sample
  PrevCPU : ℕ
  PrevSystem : ℕ
  PrevNetRx : ℕ
  PrevNetTx : ℕ
  PrevBlockRd : ℕ
  PrevBlockWr : ℕ

/-- Go `uint64` subtraction `a - b` (wraparound modulo `2 ^ 64`). -/
def u64Sub (a b : ℕ) : ℕ := (a % 2 ^ 64 + (2 ^ 64 - b % 2 ^ 64)) % 2 ^ 64

/-- The per-tick cumulative counters extracted from the runtime stats
snapshot in docker.go `CollectStats` (network bytes summed over
interfaces, block bytes summed over read/write queue entries). -/
structure RawCounters where
  Timestamp : ℚ
  NetRx : ℕ
  NetTx : ℕ
  BlockRead : ℕ
  BlockWrite : ℕ

/-- The network/block-rate portion of docker.go `CollectStats`: rates are
`float64(current - previous) / elapsed` — a `uint64` subtraction — and
are computed only when a previous `StatsResult` exists with
`PrevNetRx > 0` (resp. `PrevBlockRd > 0`) and elapsed time is positive;
the `Sample` fields are otherwise left at their zero values. The CPU,
memory, PID and classification fields of `CollectStats` are independent
of this logic and are left at zero here. -/
def collectStatsRates (raw : RawCounters) (prev : Option StatsResult) : StatsResult :=
  let netRates : ℚ × ℚ :=
    match prev with
    | some p =>
      if p.PrevNetRx > 0 then
        let elapsed := raw.Timestamp - p.Sample.Timestamp
        if elapsed > 0 then
          (((u64Sub raw.NetRx p.PrevNetRx : ℕ) : ℚ) / elapsed,
           ((u64Sub raw.NetTx p.PrevNetTx : ℕ) : ℚ) / elapsed)
        else (0, 0)
      else (0, 0)
    | none => (0, 0)
  let blockRates : ℚ × ℚ :=
    match prev with
    | some p =>
      if p.PrevBlockRd > 0 then
        let elapsed := raw.Timestamp - p.Sample.Timestamp
        if elapsed > 0 then
          (((u64Sub raw.BlockRead p.PrevBlockRd : ℕ) : ℚ) / elapsed,
           ((u64Sub raw.BlockWrite p.PrevBlockWr : ℕ) : ℚ) / elapsed)
        else (0, 0)
      else (0, 0)
    | none => (0, 0)
  { Sample :=
      { zeroSample with
        Timestamp := raw.Timestamp
        NetRxBytes := raw.NetRx
        NetTxBytes := raw.NetTx
        NetRxRate := netRates.1
        NetTxRate := netRates.2
        BlockRead := raw.BlockRead
        BlockWrite := raw.BlockWrite
        BlockReadRate := blockRates.1
        BlockWriteRate := blockRates.2 }
    PrevCPU := 0
    PrevSystem := 0
    PrevNetRx := raw.NetRx
    PrevNetTx := raw.NetTx
    PrevBlockRd := raw.BlockRead
    PrevBlockWr := raw.BlockWrite }

/-- docker.go `proxyLabelKey`. -/
def proxyLabelKey : String := "mdok.proxy"

/-- docker.go `proxyImagePatterns`: image substrings indicating a proxy
container. -/
def proxyImagePatterns : List String :=
  ["traefik", "nginx", "caddy", "haproxy", "envoy", "litellm"]

/-- ASCII lowercasing of one character (executable model of Go
`strings.ToLower` on the ASCII strings involved here). -/
def lowerChar (c : Char) : Char :=
  if 'A' ≤ c ∧ c ≤ 'Z' then Char.ofNat (c.toNat + 32) else c

/-- ASCII lowercasing of a string. -/
def toLowerAscii (s : String) : String := ⟨s.toList.map lowerChar⟩

/-- Go `strings.EqualFold` (case-insensitive equality), via ASCII
lowercasing. -/
def equalFold (a b : String) : Bool := toLowerAscii a == toLowerAscii b

/-- Go `strings.Contains s pat` (substring containment). -/
def containsSubstr (s pat : String) : Bool := decide (pat.toList <:+: s.toList)

/-- A network endpoint of a container (one entry of Go's
`NetworkSettings.Networks` map, keyed by `NetworkName`). -/
structure NetworkEndpoint where
  NetworkName : String
  IPAddress : String
  GlobalIPv6Address : String
deriving DecidableEq

/-- The container summary record inspected by the classifier (the fields
of the runtime's `container.Summary` read by docker.go). -/
structure GoContainer where
  ID : String
  Image : String
  Names : List String
  Labels : List (String × String)
  Networks : List NetworkEndpoint
deriving DecidableEq

/-- Lookup of a label value (Go `c.Labels[key]`). -/
def labelOf (c : GoContainer) (key : String) : Option String :=
  (c.Labels.find? (fun kv => kv.1 == key)).map (·.2)

/-- docker.go `isProxyContainer` (current revision): an explicit
`mdok.proxy` label takes precedence in both directions; otherwise the
lowercased image and names are matched against `proxyImagePatterns`. -/
def isProxyContainer (c : GoContainer) : Bool :=
  match labelOf c proxyLabelKey with
  | some val =>
    if equalFold val "false" || equalFold val "no" || equalFold val "0" then false
    else equalFold val "true" || equalFold val "1" || equalFold val "yes"
  | none =>
    let image := toLowerAscii c.Image
    proxyImagePatterns.any (fun pat => containsSubstr image pat) ||
      c.Names.any (fun nm =>
        proxyImagePatterns.any (fun pat => containsSubstr (toLowerAscii nm) pat))

/-- The non-empty addresses contributed by one network endpoint in
docker.go `getContainerIPs` (IPv4, then global IPv6, each only when
non-empty). -/
def endpointAddrs (nw : NetworkEndpoint) : List String :=
  (if nw.IPAddress ≠ "" then [nw.IPAddress] else []) ++
    (if nw.GlobalIPv6Address ≠ "" then [nw.GlobalIPv6Address] else [])

/-- All addresses of a container over all its networks. -/
def addrsOf (c : GoContainer) : List String := c.Networks.flatMap endpointAddrs

/-- Whether a container shares at least one network with the target
(docker.go: any of its network names is among the target's). -/
def sharesNetwork (targetNetworks : List String) (c : GoContainer) : Bool :=
  c.Networks.any (fun nw => targetNetworks.contains nw.NetworkName)

/-- docker.go `getContainerIPs` (current, two-pass revision). First pass:
collect the addresses of every proxy container other than the target,
regardless of network membership. Second pass: collect the addresses of
every non-proxy container other than the target that shares a network
with the target. Returns `(containerIPs, proxyIPs)`; the Go string-set
maps are modelled as lists read up to membership. -/
def getContainerIPs (targetID : String) (targetNetworks : List String)
    (containers : List GoContainer) : List String × List String :=
  let proxyIPs :=
    (containers.filter (fun c => c.ID != targetID && isProxyContainer c)).flatMap addrsOf
  let containerIPs :=
    (containers.filter (fun c =>
      c.ID != targetID && !isProxyContainer c && sharesNetwork targetNetworks c)).flatMap addrsOf
  (containerIPs, proxyIPs)

/-- Whether a sample carries nonzero byte-level classification data. -/
def hasByteData (s : Sample) : Bool :=
  decide (s.NetBytesInterContainer + s.NetBytesInternal + s.NetBytesInternet > 0)

/-- Whether a sample carries nonzero connection-count classification
data. -/
def hasConnData (s : Sample) : Bool :=
  decide (s.NetConnInterContainer + s.NetConnInternal + s.NetConnInternet > 0)

/-- Specification-side definition, following the wording of the spec's
Statistics-Engine section: sum the byte-classification fields across the
samples that have nonzero byte data; if any such sample exists, the
percentages come from the byte sums exclusively; only if none does, fall
back to the samples with nonzero connection counts; if neither is
present, the breakdown is absent. To be compared with the breakdown
computed by `CalculateSummary`. -/
def specNetworkBreakdown (samples : List Sample) : Option NetworkBreakdown :=
  let bytesSamples := samples.filter hasByteData
  let connSamples := samples.filter hasConnData
  if bytesSamples ≠ [] then
    let a : ℕ := (bytesSamples.map (·.NetBytesInterContainer)).sum
    let b : ℕ := (bytesSamples.map (·.NetBytesInternal)).sum
    let c : ℕ := (bytesSamples.map (·.NetBytesInternet)).sum
    let t : ℕ := a + b + c
    some ⟨(a : ℚ) / (t : ℚ) * 100, (b : ℚ) / (t : ℚ) * 100, (c : ℚ) / (t : ℚ) * 100⟩
  else if connSamples ≠ [] then
    let a : ℕ := (connSamples.map (·.NetConnInterContainer)).sum
    let b : ℕ := (connSamples.map (·.NetConnInternal)).sum
    let c : ℕ := (connSamples.map (·.NetConnInternet)).sum
    let t : ℕ := a + b + c
    some ⟨(a : ℚ) / (t : ℚ) * 100, (b : ℚ) / (t : ℚ) * 100, (c : ℚ) / (t : ℚ) * 100⟩
  else none

/-- Specification-side linear-interpolation percentile formula, written
uniformly (no special case for an integer rank): with
`r = p * (n - 1)`, the result is
`sorted[⌊r⌋] * (1 - (r - ⌊r⌋)) + sorted[⌈r⌉] * (r - ⌊r⌋)`. To be
compared with the branching `percentile` of stats.go. -/
def linearInterpPercentile (sorted : List ℚ) (p : ℚ) : ℚ :=
  let r : ℚ := p * ((sorted.length : ℚ) - 1)
  sorted.getD (⌊r⌋).toNat 0 * (1 - (r - (⌊r⌋ : ℚ))) +
    sorted.getD (⌈r⌉).toNat 0 * (r - (⌊r⌋ : ℚ))

/-- Specification-side predicate: a session boundary lies between samples
`i - 1` and `i` when their timestamp difference exceeds the gap
threshold. -/
def isGapBoundary (data : ContainerData) (i : ℕ) : Bool :=
  decide (tsOf data i - tsOf data (i - 1) > maxGapOf data)

/-- The ascending list of session-boundary indices of `data` (indices `i`
in `[1, n)` at which a new session starts). -/
def gapBoundaries (data : ContainerData) : List ℕ :=
  (List.range' 1 (data.Samples.length - 1)).filter (isGapBoundary data)

/-- Specification-side segmentation: given the list of boundary indices,
the sessions are the consecutive index ranges they delimit, each rendered
exactly as output.go renders a session. -/
def sessionsOfBounds (data : ContainerData) : ℕ → List ℕ → List SessionInfo
  | start, [] => [mkSession data start (data.Samples.length - 1)]
  | start, b :: rest => mkSession data start (b - 1) :: sessionsOfBounds data b rest

/-! Helper lemmas about sorted lists and the interpolation formula. -/

theorem getD_eq_get (l : List ℚ) {n : ℕ} (h : n < l.length) :
    l.getD n 0 = l.get ⟨n, h⟩ :=
  List.getD_eq_get l 0 h

theorem sorted_getD_mono (l : List ℚ) (hs : l.Sorted (· ≤ ·)) {i j : ℕ}
    (hij : i ≤ j) (hj : j < l.length) : l.getD i 0 ≤ l.getD j 0 := by
  have hi : i < l.length := lt_of_le_of_lt hij hj
  rw [getD_eq_get l hi, getD_eq_get l hj]
  exact hs.rel_get_of_le (Fin.mk_le_mk.mpr hij)

theorem sorted_first_le (l : List ℚ) (hs : l.Sorted (· ≤ ·)) {v : ℚ} (hv : v ∈ l) :
    l.getD 0 0 ≤ v := by
  obtain ⟨i, rfl⟩ := List.mem_iff_get.mp hv
  have h0 : (0 : ℕ) < l.length := i.pos
  rw [getD_eq_get l h0]
  exact hs.rel_get_of_le (Fin.mk_le_mk.mpr (Nat.zero_le _))

theorem le_sorted_last (l : List ℚ) (hs : l.Sorted (· ≤ ·)) {v : ℚ} (hv : v ∈ l) :
    v ≤ l.getD (l.length - 1) 0 := by
  obtain ⟨i, rfl⟩ := List.mem_iff_get.mp hv
  have hlast : l.length - 1 < l.length := Nat.sub_lt i.pos one_pos
  rw [getD_eq_get l hlast]
  exact hs.rel_get_of_le (Fin.mk_le_mk.mpr (Nat.le_sub_one_of_lt i.2))

theorem getD_zero_mem (l : List ℚ) (h : l ≠ []) : l.getD 0 0 ∈ l := by
  have h0 : (0 : ℕ) < l.length := List.length_pos.mpr h
  rw [getD_eq_get l h0]
  exact List.get_mem l 0 h0

theorem getD_last_mem (l : List ℚ) (h : l ≠ []) : l.getD (l.length - 1) 0 ∈ l := by
  have h0 : (0 : ℕ) < l.length := List.length_pos.mpr h
  have hlast : l.length - 1 < l.length := Nat.sub_lt h0 one_pos
  rw [getD_eq_get l hlast]
  exact List.get_mem l _ hlast

theorem convex_combo_bounds {a b w : ℚ} (hab : a ≤ b) (h0 : 0 ≤ w) (h1 : w ≤ 1) :
    a ≤ a * (1 - w) + b * w ∧ a * (1 - w) + b * w ≤ b := by
  constructor <;> nlinarith

theorem convex_combo_mono {a b w w' : ℚ} (hab : a ≤ b) (hww : w ≤ w') :
    a * (1 - w) + b * w ≤ a * (1 - w') + b * w' := by nlinarith

theorem ceil_of_floor_lt {r : ℚ} (h : (⌊r⌋ : ℚ) < r) : ⌈r⌉ = ⌊r⌋ + 1 := by
  have h1 := Int.ceil_le_floor_add_one r
  have h2 : ⌊r⌋ < ⌈r⌉ := by exact_mod_cast lt_of_lt_of_le h (Int.le_ceil r)
  omega

theorem rat_of_ceil_eq_floor {r : ℚ} (h : ⌈r⌉ = ⌊r⌋) : r = (⌊r⌋ : ℚ) := by
  have h1 := Int.floor_le r
  have h2 := Int.le_ceil r
  rw [h] at h2
  exact le_antisymm h2 h1

/-- The branching `percentile` of stats.go agrees with the uniform
linear-interpolation formula on every input. -/
theorem percentile_eq_linearInterp (l : List ℚ) (p : ℚ) :
    percentile l p = linearInterpPercentile l p := by
  unfold percentile linearInterpPercentile
  by_cases h0 : l.length = 0
  · rcases List.length_eq_zero.mp h0 with rfl
    simp
  by_cases h1 : l.length = 1
  · obtain ⟨a, rfl⟩ : ∃ a, l = [a] := List.length_eq_one.mp h1
    simp only [h1, if_neg h0, if_pos rfl]
    norm_num
  · simp only [if_neg h0, if_neg h1]
    set r : ℚ := p * ((l.length : ℚ) - 1) with hr
    by_cases hfc : ⌊r⌋ = ⌈r⌉
    · have hrz : r = (⌊r⌋ : ℚ) := rat_of_ceil_eq_floor hfc.symm
      simp only [if_pos hfc, ← hfc]
      rw [hrz]
      simp [Int.floor_intCast]
    · simp only [if_neg hfc]

theorem length_insertionSort (l : List ℚ) :
    (List.insertionSort (· ≤ ·) l).length = l.length :=
  (List.perm_insertionSort _ l).length_eq

theorem mem_insertionSort (l : List ℚ) {v : ℚ} :
    v ∈ List.insertionSort (· ≤ ·) l ↔ v ∈ l :=
  (List.perm_insertionSort _ l).mem_iff

/-- Bounds on the interpolated percentile of a sorted list: it lies
between the first and the last element. -/
theorem percentile_bounds (l : List ℚ) (hs : l.Sorted (· ≤ ·)) {p : ℚ}
    (hp0 : 0 ≤ p) (hp1 : p ≤ 1) (hne : l ≠ []) :
    l.getD 0 0 ≤ percentile l p ∧ percentile l p ≤ l.getD (l.length - 1) 0 := by
  by_cases h1 : l.length = 1
  · unfold percentile
    simp only [if_neg (by omega : ¬ l.length = 0), if_pos h1, h1]
    exact ⟨le_refl _, le_refl _⟩
  · have hn : 2 ≤ l.length := by
      have := List.length_pos.mpr hne
      omega
    rw [percentile_eq_linearInterp]
    unfold linearInterpPercentile
    set r : ℚ := p * ((l.length : ℚ) - 1) with hrdef
    have hcast : ((l.length : ℚ) - 1) = (((l.length : ℤ) - 1 : ℤ) : ℚ) := by push_cast; ring
    have hnm1 : (0 : ℚ) ≤ (l.length : ℚ) - 1 := by
      have : (2 : ℚ) ≤ (l.length : ℚ) := by exact_mod_cast hn
      linarith
    have hr0 : 0 ≤ r := mul_nonneg hp0 hnm1
    have hrle : r ≤ (l.length : ℚ) - 1 := by
      calc r ≤ 1 * ((l.length : ℚ) - 1) := mul_le_mul_of_nonneg_right hp1 hnm1
        _ = (l.length : ℚ) - 1 := one_mul _
    have hfl0 : (0 : ℤ) ≤ ⌊r⌋ := Int.le_floor.mpr (by exact_mod_cast hr0)
    have hceil : ⌈r⌉ ≤ (l.length : ℤ) - 1 := Int.ceil_le.mpr (by rw [← hcast]; exact hrle)
    have hfc : ⌊r⌋ ≤ ⌈r⌉ := Int.floor_le_ceil r
    have hhi : (⌈r⌉).toNat < l.length := by omega
    have hlohi : (⌊r⌋).toNat ≤ (⌈r⌉).toNat := Int.toNat_le_toNat hfc
    have hw0 : 0 ≤ r - (⌊r⌋ : ℚ) := sub_nonneg.mpr (Int.floor_le r)
    have hw1 : r - (⌊r⌋ : ℚ) ≤ 1 := by
      have := Int.lt_floor_add_one r
      push_cast at this ⊢
      linarith
    have hab : l.getD (⌊r⌋).toNat 0 ≤ l.getD (⌈r⌉).toNat 0 :=
      sorted_getD_mono l hs hlohi hhi
    obtain ⟨hlow, hup⟩ := convex_combo_bounds hab hw0 hw1
    constructor
    · exact le_trans
        (sorted_getD_mono l hs (Nat.zero_le _) (lt_of_le_of_lt hlohi hhi)) hlow
    · exact le_trans hup (sorted_getD_mono l hs (by omega) (by omega))

/-- Monotonicity of the interpolated percentile in `p` on a sorted
list. -/
theorem percentile_mono (l : List ℚ) (hs : l.Sorted (· ≤ ·)) {p q : ℚ}
    (hp0 : 0 ≤ p) (hpq : p ≤ q) (hq1 : q ≤ 1) (hne : l ≠ []) :
    percentile l p ≤ percentile l q := by
  have hpos : 0 < l.length := List.length_pos.mpr hne
  by_cases h1 : l.length = 1
  · unfold percentile
    simp only [if_neg (by omega : ¬ l.length = 0), if_pos h1]
    exact le_refl _
  · have hn : 2 ≤ l.length := by omega
    rw [percentile_eq_linearInterp l p, percentile_eq_linearInterp l q]
    simp only [linearInterpPercentile]
    set r : ℚ := p * ((l.length : ℚ) - 1) with hrdef
    set r' : ℚ := q * ((l.length : ℚ) - 1) with hrdef'
    have hcast : ((l.length : ℚ) - 1) = (((l.length : ℤ) - 1 : ℤ) : ℚ) := by push_cast; ring
    have hnm1 : (0 : ℚ) ≤ (l.length : ℚ) - 1 := by
      have : (2 : ℚ) ≤ (l.length : ℚ) := by exact_mod_cast hn
      linarith
    have hr0 : 0 ≤ r := mul_nonneg hp0 hnm1
    have hrr : r ≤ r' := mul_le_mul_of_nonneg_right hpq hnm1
    have hrle' : r' ≤ (l.length : ℚ) - 1 := by
      calc r' ≤ 1 * ((l.length : ℚ) - 1) := mul_le_mul_of_nonneg_right hq1 hnm1
        _ = (l.length : ℚ) - 1 := one_mul _
    have hceil' : ⌈r'⌉ ≤ (l.length : ℤ) - 1 := Int.ceil_le.mpr (by rw [← hcast]; exact hrle')
    have hceil : ⌈r⌉ ≤ (l.length : ℤ) - 1 :=
      le_trans (Int.ceil_le_ceil hrr) hceil'
    have hfl0 : (0 : ℤ) ≤ ⌊r⌋ := Int.le_floor.mpr (by exact_mod_cast hr0)
    have hfc : ⌊r⌋ ≤ ⌈r⌉ := Int.floor_le_ceil r
    have hfc' : ⌊r'⌋ ≤ ⌈r'⌉ := Int.floor_le_ceil r'
    have hhi : (⌈r⌉).toNat < l.length := by omega
    have hhi' : (⌈r'⌉).toNat < l.length := by omega
    have hlo' : (⌊r'⌋).toNat < l.length := by omega
    have hw0 : 0 ≤ r - (⌊r⌋ : ℚ) := sub_nonneg.mpr (Int.floor_le r)
    have hw1 : r - (⌊r⌋ : ℚ) ≤ 1 := by
      have := Int.lt_floor_add_one r
      push_cast at this ⊢
      linarith
    have hw0' : 0 ≤ r' - (⌊r'⌋ : ℚ) := sub_nonneg.mpr (Int.floor_le r')
    have hw1' : r' - (⌊r'⌋ : ℚ) ≤ 1 := by
      have := Int.lt_floor_add_one r'
      push_cast at this ⊢
      linarith
    have hab : l.getD (⌊r⌋).toNat 0 ≤ l.getD (⌈r⌉).toNat 0 :=
      sorted_getD_mono l hs (Int.toNat_le_toNat hfc) hhi
    have hab' : l.getD (⌊r'⌋).toNat 0 ≤ l.getD (⌈r'⌉).toNat 0 :=
      sorted_getD_mono l hs (Int.toNat_le_toNat hfc') hhi'
    by_cases hf : ⌊r⌋ = ⌊r'⌋
    · by_cases hrint : r = (⌊r⌋ : ℚ)
      · have hceq : ⌈r⌉ = ⌊r⌋ := by
          rw [hrint]
          simp
        have hz : r - (⌊r⌋ : ℚ) = 0 := sub_eq_zero.mpr hrint
        have hl :
            l.getD (⌊r⌋).toNat 0 * (1 - (r - (⌊r⌋ : ℚ))) +
              l.getD (⌈r⌉).toNat 0 * (r - (⌊r⌋ : ℚ)) = l.getD (⌊r⌋).toNat 0 := by
          rw [hz, hceq]
          ring
        rw [hl, hf]
        exact (convex_combo_bounds hab' hw0' hw1').1
      · have hflt : (⌊r⌋ : ℚ) < r := lt_of_le_of_ne (Int.floor_le r) fun h => hrint h.symm
        have hc1 : ⌈r⌉ = ⌊r⌋ + 1 := ceil_of_floor_lt hflt
        have hflt' : (⌊r'⌋ : ℚ) < r' := by
          rw [← hf]
          exact lt_of_lt_of_le hflt hrr
        have hc1' : ⌈r'⌉ = ⌊r'⌋ + 1 := ceil_of_floor_lt hflt'
        rw [hc1, hc1', ← hf]
        have hab2 : l.getD (⌊r⌋).toNat 0 ≤ l.getD (⌊r⌋ + 1).toNat 0 := by
          rw [← hc1]
          exact hab
        exact convex_combo_mono hab2 (by linarith)
    · have hlt : ⌊r⌋ < ⌊r'⌋ := lt_of_le_of_ne (Int.floor_le_floor hrr) hf
      have hstep1 := (convex_combo_bounds hab hw0 hw1).2
      have hidx : (⌈r⌉).toNat ≤ (⌊r'⌋).toNat := by
        have := Int.ceil_le_floor_add_one r
        exact Int.toNat_le_toNat (by omega)
      have hstep2 : l.getD (⌈r⌉).toNat 0 ≤ l.getD (⌊r'⌋).toNat 0 :=
        sorted_getD_mono l hs hidx hlo'
      have hstep3 := (convex_combo_bounds hab' hw0' hw1').1
      linarith

/-- Unfolding lemma for `calculateStats` on a non-empty list. -/
theorem calculateStats_eq (values : List ℚ) (h : ¬ values.length = 0) :
    calculateStats values =
      ⟨(List.insertionSort (· ≤ ·) values).getD 0 0,
       (List.insertionSort (· ≤ ·) values).getD
         ((List.insertionSort (· ≤ ·) values).length - 1) 0,
       values.sum / (values.length : ℚ),
       percentile (List.insertionSort (· ≤ ·) values) 0.95,
       percentile (List.insertionSort (· ≤ ·) values) 0.99⟩ := by
  simp only [calculateStats, if_neg h]

/-- Evaluation of `calculateStats` on the spec's sample set. -/
theorem calculateStats_sample_eval :
    calculateStats [10, 20, 30] = ⟨10, 30, 20, 29, 149/5⟩ := by
  have hsort : List.insertionSort (· ≤ ·) [(10 : ℚ), 20, 30] = [10, 20, 30] := by decide
  have h95 : percentile [(10 : ℚ), 20, 30] 0.95 = 29 := by
    have hfl : ⌊(0.95 : ℚ) * ((3 : ℚ) - 1)⌋ = 1 := by norm_num
    have hcl : ⌈(19/10 : ℚ)⌉ = 2 := by
      rw [Int.ceil_eq_iff]
      norm_num
    simp only [percentile, List.length_cons, List.length_nil]
    norm_num [hfl, hcl]
    simp only [show Int.toNat 2 = 2 from rfl, List.getElem_cons_succ, List.getElem_cons_zero]
    norm_num
  have h99 : percentile [(10 : ℚ), 20, 30] 0.99 = 149/5 := by
    have hfl : ⌊(0.99 : ℚ) * ((3 : ℚ) - 1)⌋ = 1 := by norm_num
    have hcl : ⌈(99/50 : ℚ)⌉ = 2 := by
      rw [Int.ceil_eq_iff]
      norm_num
    simp only [percentile, List.length_cons, List.length_nil]
    norm_num [hfl, hcl]
    simp only [show Int.toNat 2 = 2 from rfl, List.getElem_cons_succ, List.getElem_cons_zero]
    norm_num
  rw [calculateStats_eq _ (by norm_num), hsort, h95, h99]
  norm_num

/-- C1: for every non-empty list of metric values, `calculateStats`
returns a min that is the least value and a max that is the greatest
value (the endpoints of the ascending sort), an avg equal to the
arithmetic mean, and p95/p99 given by the linear-interpolation formula at
ranks `p·(n−1)` over the ascending sort; in particular on the sample set
[10, 20, 30] the avg is exactly 20 and p95 = 29, p99 = 29.8, the values
of linear interpolation (nearest-rank would give 30 for both). -/
theorem C1_calculateStats_linear (values : List ℚ) (h : values ≠ []) :
    ((calculateStats values).Min ∈ values ∧
      ∀ v ∈ values, (calculateStats values).Min ≤ v) ∧
    ((calculateStats values).Max ∈ values ∧
      ∀ v ∈ values, v ≤ (calculateStats values).Max) ∧
    (calculateStats values).Avg = values.sum / (values.length : ℚ) ∧
    (calculateStats values).P95 =
      linearInterpPercentile (List.insertionSort (· ≤ ·) values) 0.95 ∧
    (calculateStats values).P99 =
      linearInterpPercentile (List.insertionSort (· ≤ ·) values) 0.99 ∧
    calculateStats [10, 20, 30] = ⟨10, 30, 20, 29, 149/5⟩ := by
  have hlen0 : ¬ values.length = 0 := fun hc => h (List.length_eq_zero.mp hc)
  have hs := List.sorted_insertionSort (· ≤ ·) values
  have hsne : List.insertionSort (· ≤ ·) values ≠ [] := by
    intro hc
    have hl := (List.perm_insertionSort (· ≤ ·) values).length_eq
    rw [hc] at hl
    simp at hl
    omega
  rw [calculateStats_eq values hlen0]
  refine ⟨⟨?_, ?_⟩, ⟨?_, ?_⟩, rfl, ?_, ?_, calculateStats_sample_eval⟩
  · exact (mem_insertionSort values).mp (getD_zero_mem _ hsne)
  · intro v hv
    exact sorted_first_le _ hs ((mem_insertionSort values).mpr hv)
  · exact (mem_insertionSort values).mp (getD_last_mem _ hsne)
  · intro v hv
    exact le_sorted_last _ hs ((mem_insertionSort values).mpr hv)
  · exact percentile_eq_linearInterp _ _
  · exact percentile_eq_linearInterp _ _

/-- Witness for C1 at the concrete sample set [10, 20, 30]. -/
theorem C1_calculateStats_linear_witness :
    ((calculateStats [10, 20, 30]).Min ∈ ([10, 20, 30] : List ℚ) ∧
      ∀ v ∈ ([10, 20, 30] : List ℚ), (calculateStats [10, 20, 30]).Min ≤ v) ∧
    ((calculateStats [10, 20, 30]).Max ∈ ([10, 20, 30] : List ℚ) ∧
      ∀ v ∈ ([10, 20, 30] : List ℚ), v ≤ (calculateStats [10, 20, 30]).Max) ∧
    (calculateStats [10, 20, 30]).Avg =
      ([10, 20, 30] : List ℚ).sum / (([10, 20, 30] : List ℚ).length : ℚ) ∧
    (calculateStats [10, 20, 30]).P95 =
      linearInterpPercentile (List.insertionSort (· ≤ ·) [10, 20, 30]) 0.95 ∧
    (calculateStats [10, 20, 30]).P99 =
      linearInterpPercentile (List.insertionSort (· ≤ ·) [10, 20, 30]) 0.99 ∧
    calculateStats [10, 20, 30] = ⟨10, 30, 20, 29, 149/5⟩ :=
  C1_calculateStats_linear [10, 20, 30] (List.cons_ne_nil _ _)

/-- C10: for every non-empty list of metric values the summary returned
by `calculateStats` satisfies Min ≤ Avg ≤ Max and
Min ≤ P95 ≤ P99 ≤ Max. -/
theorem C10_summary_ordering (values : List ℚ) (h : values ≠ []) :
    (calculateStats values).Min ≤ (calculateStats values).Avg ∧
    (calculateStats values).Avg ≤ (calculateStats values).Max ∧
    (calculateStats values).Min ≤ (calculateStats values).P95 ∧
    (calculateStats values).P95 ≤ (calculateStats values).P99 ∧
    (calculateStats values).P99 ≤ (calculateStats values).Max := by
  have hlen0 : ¬ values.length = 0 := fun hc => h (List.length_eq_zero.mp hc)
  have hpos : 0 < values.length := Nat.pos_of_ne_zero hlen0
  have hposq : (0 : ℚ) < (values.length : ℚ) := by exact_mod_cast hpos
  have hs := List.sorted_insertionSort (· ≤ ·) values
  have hsne : List.insertionSort (· ≤ ·) values ≠ [] := by
    intro hc
    have := (List.perm_insertionSort (· ≤ ·) values).length_eq
    rw [hc] at this
    simp at this
    omega
  rw [calculateStats_eq values hlen0]
  have hminv : ∀ v ∈ values, (List.insertionSort (· ≤ ·) values).getD 0 0 ≤ v := by
    intro v hv
    exact sorted_first_le _ hs ((mem_insertionSort values).mpr hv)
  have hmaxv : ∀ v ∈ values,
      v ≤ (List.insertionSort (· ≤ ·) values).getD
        ((List.insertionSort (· ≤ ·) values).length - 1) 0 := by
    intro v hv
    exact le_sorted_last _ hs ((mem_insertionSort values).mpr hv)
  refine ⟨?_, ?_, ?_, ?_, ?_⟩
  · have hsum := List.card_nsmul_le_sum values _ hminv
    rw [nsmul_eq_mul] at hsum
    rw [le_div_iff hposq]
    linarith [hsum]
  · have hsum := List.sum_le_card_nsmul values _ hmaxv
    rw [nsmul_eq_mul] at hsum
    rw [div_le_iff hposq]
    linarith [hsum]
  · exact (percentile_bounds _ hs (by norm_num) (by norm_num) hsne).1
  · exact percentile_mono _ hs (by norm_num) (by norm_num) (by norm_num) hsne
  · exact (percentile_bounds _ hs (by norm_num) (by norm_num) hsne).2

/-- Witness for C10 at the concrete sample set [10, 20, 30]. -/
theorem C10_summary_ordering_witness :
    (calculateStats [10, 20, 30]).Min ≤ (calculateStats [10, 20, 30]).Avg ∧
    (calculateStats [10, 20, 30]).Avg ≤ (calculateStats [10, 20, 30]).Max ∧
    (calculateStats [10, 20, 30]).Min ≤ (calculateStats [10, 20, 30]).P95 ∧
    (calculateStats [10, 20, 30]).P95 ≤ (calculateStats [10, 20, 30]).P99 ∧
    (calculateStats [10, 20, 30]).P99 ≤ (calculateStats [10, 20, 30]).Max :=
  C10_summary_ordering [10, 20, 30] (List.cons_ne_nil _ _)


/-- A sample carrying only a cumulative network-rx counter, for the
spec's reset scenario. -/
def rxSample (rx : ℕ) : Sample := { zeroSample with NetRxBytes := rx }

/-- The spec's explicit counter-reset scenario: cumulative sequence
[200, 300, 50]. -/
def resetSamples : List Sample := [rxSample 200, rxSample 300, rxSample 50]

/-- C2: for every non-empty sample sequence, each cumulative total of
`CalculateSummary` equals last − first when last ≥ first and last
otherwise (as a true integer difference, hence never negative), and on
the reset sequence [200, 300, 50] the network-rx total is 50. -/
theorem C2_reset_aware_totals (samples : List Sample) (h : samples ≠ []) :
    ((CalculateSummary samples).map ContainerSummary.NetRxTotal =
      some (if (samples.getD (samples.length - 1) zeroSample).NetRxBytes ≥
            (samples.getD 0 zeroSample).NetRxBytes then
          (samples.getD (samples.length - 1) zeroSample).NetRxBytes -
            (samples.getD 0 zeroSample).NetRxBytes
        else (samples.getD (samples.length - 1) zeroSample).NetRxBytes)) ∧
    ((CalculateSummary samples).map ContainerSummary.NetTxTotal =
      some (if (samples.getD (samples.length - 1) zeroSample).NetTxBytes ≥
            (samples.getD 0 zeroSample).NetTxBytes then
          (samples.getD (samples.length - 1) zeroSample).NetTxBytes -
            (samples.getD 0 zeroSample).NetTxBytes
        else (samples.getD (samples.length - 1) zeroSample).NetTxBytes)) ∧
    ((CalculateSummary samples).map ContainerSummary.BlockReadTotal =
      some (if (samples.getD (samples.length - 1) zeroSample).BlockRead ≥
            (samples.getD 0 zeroSample).BlockRead then
          (samples.getD (samples.length - 1) zeroSample).BlockRead -
            (samples.getD 0 zeroSample).BlockRead
        else (samples.getD (samples.length - 1) zeroSample).BlockRead)) ∧
    ((CalculateSummary samples).map ContainerSummary.BlockWriteTotal =
      some (if (samples.getD (samples.length - 1) zeroSample).BlockWrite ≥
            (samples.getD 0 zeroSample).BlockWrite then
          (samples.getD (samples.length - 1) zeroSample).BlockWrite -
            (samples.getD 0 zeroSample).BlockWrite
        else (samples.getD (samples.length - 1) zeroSample).BlockWrite)) ∧
    (∀ sm, CalculateSummary samples = some sm →
      (0 : ℤ) ≤ (sm.NetRxTotal : ℤ) ∧ (0 : ℤ) ≤ (sm.NetTxTotal : ℤ) ∧
      (0 : ℤ) ≤ (sm.BlockReadTotal : ℤ) ∧ (0 : ℤ) ≤ (sm.BlockWriteTotal : ℤ)) ∧
    (CalculateSummary resetSamples).map ContainerSummary.NetRxTotal = some 50 := by
  have hlen0 : ¬ samples.length = 0 := fun hc => h (List.length_eq_zero.mp hc)
  refine ⟨?_, ?_, ?_, ?_, ?_, ?_⟩
  · simp only [CalculateSummary, if_neg hlen0, Option.map_some']
  · simp only [CalculateSummary, if_neg hlen0, Option.map_some']
  · simp only [CalculateSummary, if_neg hlen0, Option.map_some']
  · simp only [CalculateSummary, if_neg hlen0, Option.map_some']
  · intro sm _
    exact ⟨Int.ofNat_nonneg _, Int.ofNat_nonneg _, Int.ofNat_nonneg _, Int.ofNat_nonneg _⟩
  · simp only [CalculateSummary, resetSamples, rxSample, zeroSample, Option.map_some']
    norm_num

/-- Witness for C2 at the reset sequence [200, 300, 50]. -/
theorem C2_reset_aware_totals_witness :
    (CalculateSummary resetSamples).map ContainerSummary.NetRxTotal =
      some (if (resetSamples.getD (resetSamples.length - 1) zeroSample).NetRxBytes ≥
            (resetSamples.getD 0 zeroSample).NetRxBytes then
          (resetSamples.getD (resetSamples.length - 1) zeroSample).NetRxBytes -
            (resetSamples.getD 0 zeroSample).NetRxBytes
        else (resetSamples.getD (resetSamples.length - 1) zeroSample).NetRxBytes) ∧
    (CalculateSummary resetSamples).map ContainerSummary.NetRxTotal = some 50 :=
  ⟨(C2_reset_aware_totals resetSamples (List.cons_ne_nil _ _)).1,
   (C2_reset_aware_totals resetSamples (List.cons_ne_nil _ _)).2.2.2.2.2⟩
/-- Characterization of the breakdown-accumulation fold: the six sums are
the sums over the samples passing the respective nonzero test, and the
two counters are the counts of such samples. -/
theorem foldl_breakdownStep_char (samples : List Sample) (acc : BreakdownAcc) :
    samples.foldl breakdownStep acc =
      ⟨acc.totalBytesInterContainer +
         ((samples.filter hasByteData).map (·.NetBytesInterContainer)).sum,
       acc.totalBytesInternal +
         ((samples.filter hasByteData).map (·.NetBytesInternal)).sum,
       acc.totalBytesInternet +
         ((samples.filter hasByteData).map (·.NetBytesInternet)).sum,
       acc.totalConnInterContainer +
         ((samples.filter hasConnData).map (·.NetConnInterContainer)).sum,
       acc.totalConnInternal +
         ((samples.filter hasConnData).map (·.NetConnInternal)).sum,
       acc.totalConnInternet +
         ((samples.filter hasConnData).map (·.NetConnInternet)).sum,
       acc.samplesWithBytes + (samples.filter hasByteData).length,
       acc.samplesWithConnections + (samples.filter hasConnData).length⟩ := by
  induction samples generalizing acc with
  | nil =>
    cases acc
    simp
  | cons s rest ih =>
    rw [List.foldl_cons, ih]
    cases acc with
    | mk b1 b2 b3 c1 c2 c3 wb wc =>
      simp only [breakdownStep, hasByteData, hasConnData, List.filter_cons]
      by_cases hB : s.NetBytesInterContainer + s.NetBytesInternal + s.NetBytesInternet > 0 <;>
        by_cases hC : s.NetConnInterContainer + s.NetConnInternal + s.NetConnInternet > 0 <;>
          simp [hB, hC, BreakdownAcc.mk.injEq] <;> omega

/-- A nonempty byte-filtered sample list has a positive byte total. -/
theorem byteSum_pos (samples : List Sample) (h : samples.filter hasByteData ≠ []) :
    0 < ((samples.filter hasByteData).map (·.NetBytesInterContainer)).sum +
        ((samples.filter hasByteData).map (·.NetBytesInternal)).sum +
        ((samples.filter hasByteData).map (·.NetBytesInternet)).sum := by
  obtain ⟨s, hs⟩ := List.exists_mem_of_ne_nil _ h
  have hprop : hasByteData s = true := (List.mem_filter.mp hs).2
  have hpos : 0 < s.NetBytesInterContainer + s.NetBytesInternal + s.NetBytesInternet := by
    simpa [hasByteData] using hprop
  have h1 : s.NetBytesInterContainer ≤
      ((samples.filter hasByteData).map (·.NetBytesInterContainer)).sum := by
    simpa using List.single_le_sum (fun (x : ℕ) _ => Nat.zero_le x) _
      (List.mem_map_of_mem (·.NetBytesInterContainer) hs)
  have h2 : s.NetBytesInternal ≤
      ((samples.filter hasByteData).map (·.NetBytesInternal)).sum := by
    simpa using List.single_le_sum (fun (x : ℕ) _ => Nat.zero_le x) _
      (List.mem_map_of_mem (·.NetBytesInternal) hs)
  have h3 : s.NetBytesInternet ≤
      ((samples.filter hasByteData).map (·.NetBytesInternet)).sum := by
    simpa using List.single_le_sum (fun (x : ℕ) _ => Nat.zero_le x) _
      (List.mem_map_of_mem (·.NetBytesInternet) hs)
  omega

/-- A nonempty connection-filtered sample list has a positive connection
total. -/
theorem connSum_pos (samples : List Sample) (h : samples.filter hasConnData ≠ []) :
    0 < ((samples.filter hasConnData).map (·.NetConnInterContainer)).sum +
        ((samples.filter hasConnData).map (·.NetConnInternal)).sum +
        ((samples.filter hasConnData).map (·.NetConnInternet)).sum := by
  obtain ⟨s, hs⟩ := List.exists_mem_of_ne_nil _ h
  have hprop : hasConnData s = true := (List.mem_filter.mp hs).2
  have hpos : 0 < s.NetConnInterContainer + s.NetConnInternal + s.NetConnInternet := by
    simpa [hasConnData] using hprop
  have h1 : s.NetConnInterContainer ≤
      ((samples.filter hasConnData).map (·.NetConnInterContainer)).sum := by
    simpa using List.single_le_sum (fun (x : ℕ) _ => Nat.zero_le x) _
      (List.mem_map_of_mem (·.NetConnInterContainer) hs)
  have h2 : s.NetConnInternal ≤
      ((samples.filter hasConnData).map (·.NetConnInternal)).sum := by
    simpa using List.single_le_sum (fun (x : ℕ) _ => Nat.zero_le x) _
      (List.mem_map_of_mem (·.NetConnInternal) hs)
  have h3 : s.NetConnInternet ≤
      ((samples.filter hasConnData).map (·.NetConnInternet)).sum := by
    simpa using List.single_le_sum (fun (x : ℕ) _ => Nat.zero_le x) _
      (List.mem_map_of_mem (·.NetConnInternet) hs)
  omega

/-- The breakdown computed by `CalculateSummary` coincides with the
specification-side `specNetworkBreakdown` on every non-empty sample
list. -/
theorem CalculateSummary_breakdown (samples : List Sample) (h : ¬ samples.length = 0) :
    (CalculateSummary samples).map ContainerSummary.NetworkBreakdown =
      some (specNetworkBreakdown samples) := by
  simp only [CalculateSummary, if_neg h, Option.map_some']
  rw [foldl_breakdownStep_char]
  simp only [Nat.zero_add]
  unfold specNetworkBreakdown
  by_cases hb : samples.filter hasByteData = []
  · by_cases hc : samples.filter hasConnData = []
    · simp [hb, hc]
    · have hcpos := connSum_pos samples hc
      have hclen : 0 < (samples.filter hasConnData).length := List.length_pos.mpr hc
      simp [hb, hc, hclen, hcpos]
  · have hbpos := byteSum_pos samples hb
    have hblen : 0 < (samples.filter hasByteData).length := List.length_pos.mpr hb
    simp [hb, hblen, hbpos]

/-- C3: the network breakdown of `CalculateSummary` is computed from the
byte-classification sums whenever at least one sample carries nonzero
byte-level data; only when no sample does is it computed from connection
counts; and when neither kind of data is present the breakdown is absent
— i.e. it equals the spec-worded `specNetworkBreakdown` exactly. -/
theorem C3_breakdown_preference (samples : List Sample) (h : samples ≠ []) :
    (CalculateSummary samples).map ContainerSummary.NetworkBreakdown =
      some (specNetworkBreakdown samples) :=
  CalculateSummary_breakdown samples fun hc => h (List.length_eq_zero.mp hc)

/-- Witness for C3 at a concrete one-sample input. -/
theorem C3_breakdown_preference_witness :
    (CalculateSummary [zeroSample]).map ContainerSummary.NetworkBreakdown =
      some (specNetworkBreakdown [zeroSample]) :=
  C3_breakdown_preference [zeroSample] (List.cons_ne_nil _ _)

/-- Percentages of a positive three-part total sum to exactly 100. -/
theorem pct_sum (a b c : ℕ) (h : 0 < a + b + c) :
    (a : ℚ) / ((a + b + c : ℕ) : ℚ) * 100 + (b : ℚ) / ((a + b + c : ℕ) : ℚ) * 100 +
      (c : ℚ) / ((a + b + c : ℕ) : ℚ) * 100 = 100 := by
  have ht : ((a : ℚ) + b + c) ≠ 0 := by
    have h2 : (0 : ℚ) < (a : ℚ) + b + c := by exact_mod_cast h
    linarith
  push_cast
  field_simp
  ring

/-- C4: whenever `CalculateSummary` produces a network breakdown, its
three percentages sum to 100 within a tolerance of 1e-6 (in the exact
rational model they sum to 100 exactly). -/
theorem C4_breakdown_sums_to_100 (samples : List Sample) (b : NetworkBreakdown)
    (h : (CalculateSummary samples).bind ContainerSummary.NetworkBreakdown = some b) :
    |b.InterContainerPct + b.InternalPct + b.InternetPct - 100| ≤ 1 / 1000000 := by
  have hlen : ¬ samples.length = 0 := by
    intro hc
    rw [CalculateSummary, if_pos hc] at h
    exact Option.noConfusion h
  have hchar := CalculateSummary_breakdown samples hlen
  have hspec : specNetworkBreakdown samples = some b := by
    obtain ⟨sm, hsm⟩ : ∃ sm, CalculateSummary samples = some sm := by
      cases hcs : CalculateSummary samples with
      | none =>
        rw [hcs] at h
        exact Option.noConfusion h
      | some sm => exact ⟨sm, rfl⟩
    rw [hsm] at h hchar
    simp only [Option.map_some', Option.some_bind] at h hchar
    exact (Option.some.inj hchar) ▸ h
  have hsum : b.InterContainerPct + b.InternalPct + b.InternetPct = 100 := by
    unfold specNetworkBreakdown at hspec
    by_cases hb : samples.filter hasByteData = []
    · by_cases hc : samples.filter hasConnData = []
      · simp [hb, hc] at hspec
      · have hcn := connSum_pos samples hc
        simp only [hb, hc, ne_eq, not_true_eq_false, if_false, not_false_eq_true,
          if_true, Option.some.injEq] at hspec
        subst hspec
        dsimp only
        exact pct_sum _ _ _ hcn
    · have hbn := byteSum_pos samples hb
      simp only [hb, ne_eq, not_false_eq_true, if_true, Option.some.injEq] at hspec
      subst hspec
      dsimp only
      exact pct_sum _ _ _ hbn
  rw [hsum]
  norm_num

/-- A sample whose only classification datum is one inter-container
byte. -/
def byteSample : Sample := { zeroSample with NetBytesInterContainer := 1 }

/-- Witness for C4 at a concrete one-sample input whose breakdown is
(100, 0, 0). -/
theorem C4_breakdown_sums_to_100_witness :
    |(100 : ℚ) + 0 + 0 - 100| ≤ 1 / 1000000 :=
  C4_breakdown_sums_to_100 [byteSample] ⟨100, 0, 0⟩ (by
    simp [CalculateSummary, byteSample, zeroSample, breakdownStep])

/-- Membership in a conditional list. -/
theorem mem_ite_list {α : Type} {c : Prop} [Decidable c] {x : α} {l1 l2 : List α} :
    (x ∈ if c then l1 else l2) ↔ (c ∧ x ∈ l1) ∨ (¬ c ∧ x ∈ l2) := by
  split_ifs with h <;> simp [h]

/-- The summary of the spec's end-to-end scenario: max memory usage
500 MiB (and p95 also 500 MiB), all other metrics zero. -/
def s500 : ContainerSummary :=
  { CPUPercent := ⟨0, 0, 0, 0, 0⟩
    MemoryUsage := ⟨0, 524288000, 0, 524288000, 0⟩
    MemoryPercent := ⟨0, 0, 0, 0, 0⟩
    NetRxRate := ⟨0, 0, 0, 0, 0⟩
    NetTxRate := ⟨0, 0, 0, 0, 0⟩
    NetRxTotal := 0
    NetTxTotal := 0
    BlockRead := ⟨0, 0, 0, 0, 0⟩
    BlockWrite := ⟨0, 0, 0, 0, 0⟩
    BlockReadTotal := 0
    BlockWriteTotal := 0
    PidsCount := ⟨0, 0, 0, 0, 0⟩
    SampleCount := 3
    NetworkBreakdown := none }

/-- The spec's end-to-end scenario: memory limit 512 MiB, max usage
500 MiB (97.7 % of the limit). -/
def exData512 : ContainerData :=
  { Limits := ⟨0, 0, 0, 536870912, 0, 0⟩
    Interval := 5
    Samples := []
    Summary := some s500 }

/-- C5: with a memory limit set, the OOM-risk warning fires iff
max(memoryUsage) ≥ 0.95·limit, the approaching-limit warning fires iff
max < 0.95·limit and p95 ≥ 0.80·limit, the two warnings never appear
together, and the 512 MiB / 500 MiB scenario yields the OOM-risk message
and not the approaching message. -/
theorem C5_memory_warning_exclusion (data : ContainerData) (s : ContainerSummary)
    (hs : data.Summary = some s) (hlim : 0 < data.Limits.MemLimit) :
    ((Warning.oomRisk ∈ DetectWarnings data ↔
      s.MemoryUsage.Max ≥ (data.Limits.MemLimit : ℚ) * 0.95) ∧
    (Warning.memP95AboveLimit ∈ DetectWarnings data ↔
      (s.MemoryUsage.Max < (data.Limits.MemLimit : ℚ) * 0.95 ∧
        s.MemoryUsage.P95 ≥ (data.Limits.MemLimit : ℚ) * 0.80)) ∧
    ¬ (Warning.oomRisk ∈ DetectWarnings data ∧
        Warning.memP95AboveLimit ∈ DetectWarnings data)) ∧
    Warning.oomRisk ∈ DetectWarnings exData512 ∧
    Warning.memP95AboveLimit ∉ DetectWarnings exData512 := by
  have hoom : Warning.oomRisk ∈ DetectWarnings data ↔
      s.MemoryUsage.Max ≥ (data.Limits.MemLimit : ℚ) * 0.95 := by
    simp only [DetectWarnings, hs, if_pos hlim, List.mem_append, mem_ite_list,
      List.mem_singleton, List.not_mem_nil]
    simp
  have hm95 : Warning.memP95AboveLimit ∈ DetectWarnings data ↔
      (s.MemoryUsage.Max < (data.Limits.MemLimit : ℚ) * 0.95 ∧
        s.MemoryUsage.P95 ≥ (data.Limits.MemLimit : ℚ) * 0.80) := by
    simp only [DetectWarnings, hs, if_pos hlim, List.mem_append, mem_ite_list,
      List.mem_singleton, List.not_mem_nil]
    simp [not_le]
  have hEx : DetectWarnings exData512 = [Warning.oomRisk] := by
    simp only [DetectWarnings, exData512, s500]
    norm_num
  refine ⟨⟨hoom, hm95, ?_⟩, ?_, ?_⟩
  · rintro ⟨h1, h2⟩
    rw [hoom] at h1
    rw [hm95] at h2
    linarith [h1, h2.1]
  · rw [hEx]
    exact List.mem_singleton.mpr rfl
  · rw [hEx]
    intro hc
    simp at hc

/-- Witness for C5 at the 512 MiB / 500 MiB scenario. -/
theorem C5_memory_warning_exclusion_witness :
    ((Warning.oomRisk ∈ DetectWarnings exData512 ↔
      s500.MemoryUsage.Max ≥ (exData512.Limits.MemLimit : ℚ) * 0.95) ∧
    (Warning.memP95AboveLimit ∈ DetectWarnings exData512 ↔
      (s500.MemoryUsage.Max < (exData512.Limits.MemLimit : ℚ) * 0.95 ∧
        s500.MemoryUsage.P95 ≥ (exData512.Limits.MemLimit : ℚ) * 0.80)) ∧
    ¬ (Warning.oomRisk ∈ DetectWarnings exData512 ∧
        Warning.memP95AboveLimit ∈ DetectWarnings exData512)) ∧
    Warning.oomRisk ∈ DetectWarnings exData512 ∧
    Warning.memP95AboveLimit ∉ DetectWarnings exData512 :=
  C5_memory_warning_exclusion exData512 s500 rfl (by norm_num [exData512])

/-- First-fit decomposition of a successful `find?`. -/
theorem find?_decomp {α : Type} (p : α → Bool) (l : List α) (x : α)
    (h : l.find? p = some x) :
    ∃ l1 l2, l = l1 ++ x :: l2 ∧ p x = true ∧ ∀ y ∈ l1, p y = false := by
  induction l with
  | nil => simp at h
  | cons a t ih =>
    by_cases hpa : p a = true
    · rw [List.find?_cons_of_pos _ hpa] at h
      obtain rfl := Option.some.inj h
      exact ⟨[], t, rfl, hpa, by simp⟩
    · rw [List.find?_cons_of_neg _ (by simpa using hpa)] at h
      obtain ⟨l1, l2, rfl, hx, hall⟩ := ih h
      refine ⟨a :: l1, l2, rfl, hx, ?_⟩
      intro y hy
      rcases List.mem_cons.mp hy with rfl | hy2
      · simpa using hpa
      · exact hall y hy2

/-- A `find?` over a list whose prefix fails the test returns the first
succeeding element. -/
theorem find?_of_decomp {α : Type} (p : α → Bool) (l1 l2 : List α) (x : α)
    (h1 : ∀ y ∈ l1, p y = false) (hx : p x = true) :
    (l1 ++ x :: l2).find? p = some x := by
  induction l1 with
  | nil => simpa using List.find?_cons_of_pos (p := p) l2 hx
  | cons a t ih =>
    rw [List.cons_append, List.find?_cons_of_neg _ (by simp [h1 a (by simp)])]
    exact ih fun y hy => h1 y (List.mem_cons_of_mem a hy)

/-- A `find?` over a list where every element fails returns `none`. -/
theorem find?_none_of {α : Type} (p : α → Bool) (l : List α)
    (h : ∀ y ∈ l, p y = false) : l.find? p = none := by
  induction l with
  | nil => rfl
  | cons a t ih =>
    rw [List.find?_cons_of_neg _ (by simp [h a (by simp)])]
    exact ih fun y hy => h y (List.mem_cons_of_mem a hy)

theorem instQualifies_eq_true {rc rm : ℚ} {i : InstanceType} :
    instQualifies rc rm i = true ↔ ((i.VCPU : ℚ) ≥ rc ∧ i.MemoryGB ≥ rm) := by
  simp [instQualifies]

theorem instQualifies_eq_false {rc rm : ℚ} {i : InstanceType} :
    instQualifies rc rm i = false ↔ ¬ ((i.VCPU : ℚ) ≥ rc ∧ i.MemoryGB ≥ rm) := by
  rw [← Bool.not_eq_true, instQualifies_eq_true]

/-- The x86 half of the catalog, in declared order. -/
def x86Catalog : List InstanceType := [
  ⟨"t3.micro", 2, 1, 0.0104, "x86"⟩,
  ⟨"t3.small", 2, 2, 0.0208, "x86"⟩,
  ⟨"t3.medium", 2, 4, 0.0416, "x86"⟩,
  ⟨"t3.large", 2, 8, 0.0832, "x86"⟩,
  ⟨"t3.xlarge", 4, 16, 0.1664, "x86"⟩,
  ⟨"m5.large", 2, 8, 0.096, "x86"⟩,
  ⟨"m5.xlarge", 4, 16, 0.192, "x86"⟩,
  ⟨"m5.2xlarge", 8, 32, 0.384, "x86"⟩,
  ⟨"c5.large", 2, 4, 0.085, "x86"⟩,
  ⟨"c5.xlarge", 4, 8, 0.17, "x86"⟩,
  ⟨"c5.2xlarge", 8, 16, 0.34, "x86"⟩,
  ⟨"r5.large", 2, 16, 0.126, "x86"⟩,
  ⟨"r5.xlarge", 4, 32, 0.252, "x86"⟩]

/-- The architecture filter evaluates to the x86 half of the catalog. -/
theorem filter_x86 : awsInstanceTypes.filter (fun i => i.Arch == "x86") = x86Catalog := rfl

/-- A summary whose only nonzero statistic is one p95 value. -/
def statP95 (v : ℚ) : Summary := ⟨0, 0, 0, v, 0⟩

/-- A container summary with given cpu-percent and memory-usage p95
values and all other metrics zero. -/
def summaryWithP95 (cpu memBytes : ℚ) : ContainerSummary :=
  { CPUPercent := statP95 cpu
    MemoryUsage := statP95 memBytes
    MemoryPercent := statP95 0
    NetRxRate := statP95 0
    NetTxRate := statP95 0
    NetRxTotal := 0
    NetTxTotal := 0
    BlockRead := statP95 0
    BlockWrite := statP95 0
    BlockReadTotal := 0
    BlockWriteTotal := 0
    PidsCount := statP95 0
    SampleCount := 0
    NetworkBreakdown := none }

/-- The spec's sizing example: effective requirements 1.1 cores and
1.1 GiB (cpu p95 = 1100/12 percent, memory p95 = 11/12 GiB). -/
def exSummary11 : ContainerSummary := summaryWithP95 (1100/12) ((11/12) * 1073741824)

/-- A workload whose cpu requirement (12 effective cores) exceeds every
catalog entry. -/
def exSummaryBig : ContainerSummary := summaryWithP95 1000 0

/-- If `find?` returns `none`, every element fails the test. -/
theorem find?_none_all {α : Type} (p : α → Bool) (l : List α) (h : l.find? p = none) :
    ∀ y ∈ l, p y = false := by
  induction l with
  | nil => simp
  | cons a t ih =>
    intro y hy
    by_cases hpa : p a = true
    · rw [List.find?_cons_of_pos _ hpa] at h
      exact Option.noConfusion h
    · rw [List.find?_cons_of_neg _ (by simpa using hpa)] at h
      rcases List.mem_cons.mp hy with rfl | hy2
      · simpa using hpa
      · exact ih h y hy2

/-- Evaluation of the first-fit scan for the 1.1-core / 1.1-GiB
requirements: the first entry fails the memory check and the second
qualifies. -/
theorem find_x86_11 :
    x86Catalog.find? (instQualifies (11/10) (11/10)) =
      some ⟨"t3.small", 2, 2, 0.0208, "x86"⟩ := by
  have hsplit : x86Catalog =
      [⟨"t3.micro", 2, 1, 0.0104, "x86"⟩] ++
        (⟨"t3.small", 2, 2, 0.0208, "x86"⟩ : InstanceType) :: [
    ⟨"t3.medium", 2, 4, 0.0416, "x86"⟩,
    ⟨"t3.large", 2, 8, 0.0832, "x86"⟩,
    ⟨"t3.xlarge", 4, 16, 0.1664, "x86"⟩,
    ⟨"m5.large", 2, 8, 0.096, "x86"⟩,
    ⟨"m5.xlarge", 4, 16, 0.192, "x86"⟩,
    ⟨"m5.2xlarge", 8, 32, 0.384, "x86"⟩,
    ⟨"c5.large", 2, 4, 0.085, "x86"⟩,
    ⟨"c5.xlarge", 4, 8, 0.17, "x86"⟩,
    ⟨"c5.2xlarge", 8, 16, 0.34, "x86"⟩,
    ⟨"r5.large", 2, 16, 0.126, "x86"⟩,
    ⟨"r5.xlarge", 4, 32, 0.252, "x86"⟩] := rfl
  rw [hsplit]
  apply find?_of_decomp
  · intro y hy
    simp only [List.mem_singleton] at hy
    subst hy
    rw [instQualifies_eq_false]
    rintro ⟨-, h2⟩
    norm_num at h2
  · rw [instQualifies_eq_true]
    constructor <;> norm_num

/-- No x86 catalog entry offers 12 cores. -/
theorem find_x86_none12 : x86Catalog.find? (instQualifies 12 0) = none := by
  apply find?_none_of
  intro y hy
  simp only [x86Catalog, List.mem_cons, List.not_mem_nil, or_false] at hy
  rw [instQualifies_eq_false]
  rintro ⟨h1, -⟩
  rcases hy with rfl|rfl|rfl|rfl|rfl|rfl|rfl|rfl|rfl|rfl|rfl|rfl|rfl <;> norm_num at h1

/-- The final x86 catalog entry. -/
theorem getLast_x86 :
    x86Catalog.getLast? = some ⟨"r5.xlarge", 4, 32, 0.252, "x86"⟩ := rfl

theorem req_cpu_11 : exSummary11.CPUPercent.P95 / 100 * 1.2 = 11/10 := by
  norm_num [exSummary11, summaryWithP95, statP95]

theorem req_mem_11 :
    exSummary11.MemoryUsage.P95 / (1024 * 1024 * 1024) * 1.2 = 11/10 := by
  norm_num [exSummary11, summaryWithP95, statP95]

theorem req_cpu_big : exSummaryBig.CPUPercent.P95 / 100 * 1.2 = 12 := by
  norm_num [exSummaryBig, summaryWithP95, statP95]

theorem req_mem_big :
    exSummaryBig.MemoryUsage.P95 / (1024 * 1024 * 1024) * 1.2 = 0 := by
  norm_num [exSummaryBig, summaryWithP95, statP95]

/-- The fallback recommendation for the oversized x86 workload. -/
def bigRec : InstanceRecommendation :=
  ⟨"r5.xlarge", 4, 32, "Resource requirements exceed common instance sizes", 0.252, "x86"⟩

/-- Evaluation of `RecommendInstance` on the oversized workload: the
fallback returns the final x86 catalog entry. -/
theorem recommend_big_eval : RecommendInstance (some exSummaryBig) "x86" = some bigRec := by
  simp only [RecommendInstance]
  rw [req_cpu_big, req_mem_big, filter_x86, find_x86_none12, getLast_x86]
  rfl

/-- C7 (amended): `RecommendInstance` scans the architecture-filtered
catalog in declared order and returns the first entry whose cores and
memory both meet the p95-with-20%-headroom requirements (so the
1.1-core / 1.1-GiB workload gets the second x86 entry, t3.small); when no
entry qualifies it returns the architecture's final catalog entry — not
a maximal one — with the exceeds-common-sizes reason. -/
theorem C7_catalog_first_fit :
    (∀ (s : ContainerSummary) (arch : String) (r : InstanceRecommendation),
      RecommendInstance (some s) arch = some r →
      (∃ l1 inst l2,
        awsInstanceTypes.filter (fun i => i.Arch == arch) = l1 ++ inst :: l2 ∧
        instQualifies (s.CPUPercent.P95 / 100 * 1.2)
          (s.MemoryUsage.P95 / (1024 * 1024 * 1024) * 1.2) inst = true ∧
        (∀ y ∈ l1, instQualifies (s.CPUPercent.P95 / 100 * 1.2)
          (s.MemoryUsage.P95 / (1024 * 1024 * 1024) * 1.2) y = false) ∧
        r.InstanceType = inst.instType ∧ r.VCPU = inst.VCPU ∧ r.MemoryGB = inst.MemoryGB) ∨
      ((∀ y ∈ awsInstanceTypes.filter (fun i => i.Arch == arch),
          instQualifies (s.CPUPercent.P95 / 100 * 1.2)
            (s.MemoryUsage.P95 / (1024 * 1024 * 1024) * 1.2) y = false) ∧
        ∃ inst, (awsInstanceTypes.filter (fun i => i.Arch == arch)).getLast? = some inst ∧
          r.InstanceType = inst.instType ∧ r.VCPU = inst.VCPU ∧ r.MemoryGB = inst.MemoryGB ∧
          r.Reason = "Resource requirements exceed common instance sizes")) ∧
    (∃ r, RecommendInstance (some exSummary11) "x86" = some r ∧
      r.InstanceType = "t3.small" ∧ r.VCPU = 2 ∧ r.MemoryGB = 2) ∧
    RecommendInstance (some exSummaryBig) "x86" = some bigRec := by
  refine ⟨?_, ?_, recommend_big_eval⟩
  · intro s arch r hr
    simp only [RecommendInstance] at hr
    cases hfind : (awsInstanceTypes.filter fun i => i.Arch == arch).find?
        (instQualifies (s.CPUPercent.P95 / 100 * 1.2)
          (s.MemoryUsage.P95 / (1024 * 1024 * 1024) * 1.2)) with
    | some inst =>
      rw [hfind] at hr
      dsimp only at hr
      obtain rfl := (Option.some.inj hr).symm
      obtain ⟨l1, l2, heq, hq, hall⟩ := find?_decomp _ _ _ hfind
      exact Or.inl ⟨l1, inst, l2, heq, hq, hall, rfl, rfl, rfl⟩
    | none =>
      rw [hfind] at hr
      dsimp only at hr
      cases hlast : (awsInstanceTypes.filter fun i => i.Arch == arch).getLast? with
      | none =>
        rw [hlast] at hr
        exact Option.noConfusion hr
      | some inst =>
        rw [hlast] at hr
        dsimp only at hr
        obtain rfl := (Option.some.inj hr).symm
        exact Or.inr ⟨find?_none_all _ _ hfind, inst, rfl, rfl, rfl, rfl, rfl⟩
  · simp only [RecommendInstance]
    rw [req_cpu_11, req_mem_11, filter_x86, find_x86_11]
    exact ⟨_, rfl, rfl, rfl, rfl⟩

/-- Counterexample to C7 as stated: for a workload needing 12 effective
cores, no x86 entry qualifies, and the entry returned (r5.xlarge, 4
vCPU, 32 GB) is not the architecture's largest catalog entry — the
catalog also holds m5.2xlarge with strictly more vCPUs and no less
memory. -/
theorem C7_largest_counterexample :
    (∀ y ∈ awsInstanceTypes.filter (fun i => i.Arch == "x86"),
      instQualifies (exSummaryBig.CPUPercent.P95 / 100 * 1.2)
        (exSummaryBig.MemoryUsage.P95 / (1024 * 1024 * 1024) * 1.2) y = false) ∧
    RecommendInstance (some exSummaryBig) "x86" = some bigRec ∧
    ¬ (∀ i ∈ awsInstanceTypes, i.Arch = "x86" →
        i.VCPU ≤ bigRec.VCPU ∧ i.MemoryGB ≤ bigRec.MemoryGB) := by
  refine ⟨?_, recommend_big_eval, ?_⟩
  · intro y hy
    rw [req_cpu_big, req_mem_big]
    rw [filter_x86] at hy
    exact find?_none_all _ _ find_x86_none12 y hy
  · intro hall
    have hmem : (⟨"m5.2xlarge", 8, 32, 0.384, "x86"⟩ : InstanceType) ∈ awsInstanceTypes := by
      simp [awsInstanceTypes]
    have := (hall _ hmem rfl).1
    norm_num [bigRec] at this

/-- Witness for C7 at the oversized x86 workload (fallback branch). -/
theorem C7_catalog_first_fit_witness :
    (∃ l1 inst l2,
      awsInstanceTypes.filter (fun i => i.Arch == "x86") = l1 ++ inst :: l2 ∧
      instQualifies (exSummaryBig.CPUPercent.P95 / 100 * 1.2)
        (exSummaryBig.MemoryUsage.P95 / (1024 * 1024 * 1024) * 1.2) inst = true ∧
      (∀ y ∈ l1, instQualifies (exSummaryBig.CPUPercent.P95 / 100 * 1.2)
        (exSummaryBig.MemoryUsage.P95 / (1024 * 1024 * 1024) * 1.2) y = false) ∧
      bigRec.InstanceType = inst.instType ∧ bigRec.VCPU = inst.VCPU ∧
      bigRec.MemoryGB = inst.MemoryGB) ∨
    ((∀ y ∈ awsInstanceTypes.filter (fun i => i.Arch == "x86"),
        instQualifies (exSummaryBig.CPUPercent.P95 / 100 * 1.2)
          (exSummaryBig.MemoryUsage.P95 / (1024 * 1024 * 1024) * 1.2) y = false) ∧
      ∃ inst, (awsInstanceTypes.filter (fun i => i.Arch == "x86")).getLast? = some inst ∧
        bigRec.InstanceType = inst.instType ∧ bigRec.VCPU = inst.VCPU ∧
        bigRec.MemoryGB = inst.MemoryGB ∧
        bigRec.Reason = "Resource requirements exceed common instance sizes") :=
  C7_catalog_first_fit.1 exSummaryBig "x86" bigRec recommend_big_eval

/-- On a counter reset (current below previous, both in `uint64` range)
the wraparound subtraction yields `2^64` minus the true decrease. -/
theorem u64Sub_of_lt {a b : ℕ} (hab : a < b) (hb : b < 2 ^ 64) :
    u64Sub a b = 2 ^ 64 - (b - a) := by
  unfold u64Sub
  have ha : a < 2 ^ 64 := lt_trans hab hb
  rw [Nat.mod_eq_of_lt ha, Nat.mod_eq_of_lt hb, Nat.mod_eq_of_lt (by omega)]
  omega

/-- Without a reset the wraparound subtraction is the true difference. -/
theorem u64Sub_of_ge {a b : ℕ} (hab : b ≤ a) (ha : a < 2 ^ 64) :
    u64Sub a b = a - b := by
  unfold u64Sub
  have hb : b < 2 ^ 64 := lt_of_le_of_lt hab ha
  rw [Nat.mod_eq_of_lt ha, Nat.mod_eq_of_lt hb]
  have : a + (2 ^ 64 - b) = 2 ^ 64 + (a - b) := by omega
  rw [this, Nat.add_mod_left, Nat.mod_eq_of_lt (by omega)]

/-- C8 (amended): the network and block I/O rates of a collected sample
are the `uint64` wraparound difference of the cumulative counters
divided by the elapsed seconds, computed only when a previous
`StatsResult` exists whose stored previous counter (`PrevNetRx` for both
network rates, `PrevBlockRd` for both block rates) is positive and the
elapsed time is positive, and 0 otherwise (no previous result, a zero
stored counter, or non-positive elapsed time); on a counter reset the
affected rate is therefore a huge positive value — about
`2^64 / elapsed` — not a negative one, and without a reset it is the
ordinary difference over the elapsed time. -/
theorem C8_rate_computation :
    (∀ raw : RawCounters,
      (collectStatsRates raw none).Sample.NetRxRate = 0 ∧
      (collectStatsRates raw none).Sample.NetTxRate = 0 ∧
      (collectStatsRates raw none).Sample.BlockReadRate = 0 ∧
      (collectStatsRates raw none).Sample.BlockWriteRate = 0) ∧
    (∀ (raw : RawCounters) (p : StatsResult), p.PrevNetRx = 0 →
      (collectStatsRates raw (some p)).Sample.NetRxRate = 0 ∧
      (collectStatsRates raw (some p)).Sample.NetTxRate = 0) ∧
    (∀ (raw : RawCounters) (p : StatsResult), p.PrevBlockRd = 0 →
      (collectStatsRates raw (some p)).Sample.BlockReadRate = 0 ∧
      (collectStatsRates raw (some p)).Sample.BlockWriteRate = 0) ∧
    (∀ (raw : RawCounters) (p : StatsResult),
      raw.Timestamp - p.Sample.Timestamp ≤ 0 →
      (collectStatsRates raw (some p)).Sample.NetRxRate = 0 ∧
      (collectStatsRates raw (some p)).Sample.NetTxRate = 0 ∧
      (collectStatsRates raw (some p)).Sample.BlockReadRate = 0 ∧
      (collectStatsRates raw (some p)).Sample.BlockWriteRate = 0) ∧
    (∀ (raw : RawCounters) (p : StatsResult),
      0 < p.PrevNetRx → 0 < raw.Timestamp - p.Sample.Timestamp →
      (collectStatsRates raw (some p)).Sample.NetRxRate =
        ((u64Sub raw.NetRx p.PrevNetRx : ℕ) : ℚ) / (raw.Timestamp - p.Sample.Timestamp) ∧
      (collectStatsRates raw (some p)).Sample.NetTxRate =
        ((u64Sub raw.NetTx p.PrevNetTx : ℕ) : ℚ) / (raw.Timestamp - p.Sample.Timestamp)) ∧
    (∀ (raw : RawCounters) (p : StatsResult),
      0 < p.PrevBlockRd → 0 < raw.Timestamp - p.Sample.Timestamp →
      (collectStatsRates raw (some p)).Sample.BlockReadRate =
        ((u64Sub raw.BlockRead p.PrevBlockRd : ℕ) : ℚ) / (raw.Timestamp - p.Sample.Timestamp) ∧
      (collectStatsRates raw (some p)).Sample.BlockWriteRate =
        ((u64Sub raw.BlockWrite p.PrevBlockWr : ℕ) : ℚ) / (raw.Timestamp - p.Sample.Timestamp)) ∧
    (∀ (raw : RawCounters) (p : StatsResult),
      0 < p.PrevNetRx → 0 < raw.Timestamp - p.Sample.Timestamp →
      raw.NetRx < p.PrevNetRx → p.PrevNetRx < 2 ^ 64 →
      (collectStatsRates raw (some p)).Sample.NetRxRate =
        ((2 ^ 64 - (p.PrevNetRx - raw.NetRx) : ℕ) : ℚ) /
          (raw.Timestamp - p.Sample.Timestamp) ∧
      0 < (collectStatsRates raw (some p)).Sample.NetRxRate) ∧
    (∀ (raw : RawCounters) (p : StatsResult),
      0 < p.PrevNetRx → 0 < raw.Timestamp - p.Sample.Timestamp →
      raw.NetTx < p.PrevNetTx → p.PrevNetTx < 2 ^ 64 →
      (collectStatsRates raw (some p)).Sample.NetTxRate =
        ((2 ^ 64 - (p.PrevNetTx - raw.NetTx) : ℕ) : ℚ) /
          (raw.Timestamp - p.Sample.Timestamp) ∧
      0 < (collectStatsRates raw (some p)).Sample.NetTxRate) ∧
    (∀ (raw : RawCounters) (p : StatsResult),
      0 < p.PrevBlockRd → 0 < raw.Timestamp - p.Sample.Timestamp →
      raw.BlockRead < p.PrevBlockRd → p.PrevBlockRd < 2 ^ 64 →
      (collectStatsRates raw (some p)).Sample.BlockReadRate =
        ((2 ^ 64 - (p.PrevBlockRd - raw.BlockRead) : ℕ) : ℚ) /
          (raw.Timestamp - p.Sample.Timestamp) ∧
      0 < (collectStatsRates raw (some p)).Sample.BlockReadRate) ∧
    (∀ (raw : RawCounters) (p : StatsResult),
      0 < p.PrevBlockRd → 0 < raw.Timestamp - p.Sample.Timestamp →
      raw.BlockWrite < p.PrevBlockWr → p.PrevBlockWr < 2 ^ 64 →
      (collectStatsRates raw (some p)).Sample.BlockWriteRate =
        ((2 ^ 64 - (p.PrevBlockWr - raw.BlockWrite) : ℕ) : ℚ) /
          (raw.Timestamp - p.Sample.Timestamp) ∧
      0 < (collectStatsRates raw (some p)).Sample.BlockWriteRate) ∧
    (∀ (raw : RawCounters) (p : StatsResult),
      0 < p.PrevNetRx → 0 < raw.Timestamp - p.Sample.Timestamp →
      p.PrevNetRx ≤ raw.NetRx → raw.NetRx < 2 ^ 64 →
      (collectStatsRates raw (some p)).Sample.NetRxRate =
        ((raw.NetRx - p.PrevNetRx : ℕ) : ℚ) / (raw.Timestamp - p.Sample.Timestamp)) ∧
    (∀ (raw : RawCounters) (p : StatsResult),
      0 < p.PrevNetRx → 0 < raw.Timestamp - p.Sample.Timestamp →
      p.PrevNetTx ≤ raw.NetTx → raw.NetTx < 2 ^ 64 →
      (collectStatsRates raw (some p)).Sample.NetTxRate =
        ((raw.NetTx - p.PrevNetTx : ℕ) : ℚ) / (raw.Timestamp - p.Sample.Timestamp)) ∧
    (∀ (raw : RawCounters) (p : StatsResult),
      0 < p.PrevBlockRd → 0 < raw.Timestamp - p.Sample.Timestamp →
      p.PrevBlockRd ≤ raw.BlockRead → raw.BlockRead < 2 ^ 64 →
      (collectStatsRates raw (some p)).Sample.BlockReadRate =
        ((raw.BlockRead - p.PrevBlockRd : ℕ) : ℚ) / (raw.Timestamp - p.Sample.Timestamp)) ∧
    (∀ (raw : RawCounters) (p : StatsResult),
      0 < p.PrevBlockRd → 0 < raw.Timestamp - p.Sample.Timestamp →
      p.PrevBlockWr ≤ raw.BlockWrite → raw.BlockWrite < 2 ^ 64 →
      (collectStatsRates raw (some p)).Sample.BlockWriteRate =
        ((raw.BlockWrite - p.PrevBlockWr : ℕ) : ℚ) / (raw.Timestamp - p.Sample.Timestamp)) := by
  have hnet : ∀ (raw : RawCounters) (p : StatsResult),
      0 < p.PrevNetRx → 0 < raw.Timestamp - p.Sample.Timestamp →
      (collectStatsRates raw (some p)).Sample.NetRxRate =
        ((u64Sub raw.NetRx p.PrevNetRx : ℕ) : ℚ) / (raw.Timestamp - p.Sample.Timestamp) ∧
      (collectStatsRates raw (some p)).Sample.NetTxRate =
        ((u64Sub raw.NetTx p.PrevNetTx : ℕ) : ℚ) / (raw.Timestamp - p.Sample.Timestamp) := by
    intro raw p h1 h2
    simp [collectStatsRates, h1, h2]
  have hblk : ∀ (raw : RawCounters) (p : StatsResult),
      0 < p.PrevBlockRd → 0 < raw.Timestamp - p.Sample.Timestamp →
      (collectStatsRates raw (some p)).Sample.BlockReadRate =
        ((u64Sub raw.BlockRead p.PrevBlockRd : ℕ) : ℚ) / (raw.Timestamp - p.Sample.Timestamp) ∧
      (collectStatsRates raw (some p)).Sample.BlockWriteRate =
        ((u64Sub raw.BlockWrite p.PrevBlockWr : ℕ) : ℚ) / (raw.Timestamp - p.Sample.Timestamp) := by
    intro raw p h1 h2
    simp [collectStatsRates, h1, h2]
  refine ⟨?_, ?_, ?_, ?_, hnet, hblk, ?_, ?_, ?_, ?_, ?_, ?_, ?_, ?_⟩
  · intro raw
    simp [collectStatsRates]
  · intro raw p h0
    simp [collectStatsRates, h0]
  · intro raw p h0
    simp [collectStatsRates, h0]
  · intro raw p h
    have hno : ¬ (0 < raw.Timestamp - p.Sample.Timestamp) := not_lt.mpr h
    by_cases h1 : 0 < p.PrevNetRx <;> by_cases h2 : 0 < p.PrevBlockRd <;>
      simp [collectStatsRates, h1, h2, hno]
  · intro raw p h1 h2 hlt hb
    obtain ⟨hrx, -⟩ := hnet raw p h1 h2
    rw [hrx, u64Sub_of_lt hlt hb]
    refine ⟨rfl, div_pos ?_ h2⟩
    have hp : 0 < 2 ^ 64 - (p.PrevNetRx - raw.NetRx) := by omega
    exact_mod_cast hp
  · intro raw p h1 h2 hlt hb
    obtain ⟨-, htx⟩ := hnet raw p h1 h2
    rw [htx, u64Sub_of_lt hlt hb]
    refine ⟨rfl, div_pos ?_ h2⟩
    have hp : 0 < 2 ^ 64 - (p.PrevNetTx - raw.NetTx) := by omega
    exact_mod_cast hp
  · intro raw p h1 h2 hlt hb
    obtain ⟨hrd, -⟩ := hblk raw p h1 h2
    rw [hrd, u64Sub_of_lt hlt hb]
    refine ⟨rfl, div_pos ?_ h2⟩
    have hp : 0 < 2 ^ 64 - (p.PrevBlockRd - raw.BlockRead) := by omega
    exact_mod_cast hp
  · intro raw p h1 h2 hlt hb
    obtain ⟨-, hwr⟩ := hblk raw p h1 h2
    rw [hwr, u64Sub_of_lt hlt hb]
    refine ⟨rfl, div_pos ?_ h2⟩
    have hp : 0 < 2 ^ 64 - (p.PrevBlockWr - raw.BlockWrite) := by omega
    exact_mod_cast hp
  · intro raw p h1 h2 hge ha
    obtain ⟨hrx, -⟩ := hnet raw p h1 h2
    rw [hrx, u64Sub_of_ge hge ha]
  · intro raw p h1 h2 hge ha
    obtain ⟨-, htx⟩ := hnet raw p h1 h2
    rw [htx, u64Sub_of_ge hge ha]
  · intro raw p h1 h2 hge ha
    obtain ⟨hrd, -⟩ := hblk raw p h1 h2
    rw [hrd, u64Sub_of_ge hge ha]
  · intro raw p h1 h2 hge ha
    obtain ⟨-, hwr⟩ := hblk raw p h1 h2
    rw [hwr, u64Sub_of_ge hge ha]

/-- A previous `StatsResult` holding cumulative counters 200 at time 0. -/
def prevAt200 : StatsResult :=
  { Sample := { zeroSample with Timestamp := 0 }
    PrevCPU := 0
    PrevSystem := 0
    PrevNetRx := 200
    PrevNetTx := 200
    PrevBlockRd := 200
    PrevBlockWr := 200 }

/-- A previous `StatsResult` holding cumulative counter 0 at time 0. -/
def prevAt0 : StatsResult :=
  { Sample := { zeroSample with Timestamp := 0 }
    PrevCPU := 0
    PrevSystem := 0
    PrevNetRx := 0
    PrevNetTx := 0
    PrevBlockRd := 0
    PrevBlockWr := 0 }

/-- The tick one second later whose cumulative counters have reset to
50. -/
def rawReset : RawCounters := ⟨1, 50, 50, 50, 50⟩

/-- The tick one second later with cumulative counters 100. -/
def raw100 : RawCounters := ⟨1, 100, 100, 100, 100⟩

/-- Counterexample to C8 as stated: on a counter reset (200 → 50 over
one second) the computed rate is the huge positive value `2^64 − 150`,
not the negative `(50 − 200)/1`; and with a previous sample whose stored
counter is zero the rate stays 0 even though a previous sample exists
and the elapsed time is positive, contradicting the claim's
unconditional formula. -/
theorem C8_negative_rate_counterexample :
    (collectStatsRates rawReset (some prevAt200)).Sample.NetRxRate =
      ((18446744073709551466 : ℕ) : ℚ) ∧
    (collectStatsRates rawReset (some prevAt200)).Sample.NetRxRate ≠
      ((50 : ℚ) - 200) / 1 ∧
    0 < (collectStatsRates rawReset (some prevAt200)).Sample.NetRxRate ∧
    (collectStatsRates raw100 (some prevAt0)).Sample.NetRxRate = 0 ∧
    (collectStatsRates raw100 (some prevAt0)).Sample.NetRxRate ≠
      ((100 : ℚ) - 0) / 1 := by
  have h1 : (collectStatsRates rawReset (some prevAt200)).Sample.NetRxRate =
      ((18446744073709551466 : ℕ) : ℚ) := by
    have hu : u64Sub 50 200 = 18446744073709551466 := by
      rw [u64Sub_of_lt (by norm_num) (by norm_num)]
      norm_num
    simp only [collectStatsRates, prevAt200, rawReset, zeroSample]
    norm_num [hu]
  have h2 : (collectStatsRates raw100 (some prevAt0)).Sample.NetRxRate = 0 := by
    simp [collectStatsRates, prevAt0, raw100, zeroSample]
  refine ⟨h1, ?_, ?_, h2, ?_⟩
  · rw [h1]
    norm_num
  · rw [h1]
    norm_num
  · rw [h2]
    norm_num

/-- Witness for C8 at the reset scenario: both the network-rx and the
block-read rate come out as the huge positive wraparound value. -/
theorem C8_rate_computation_witness :
    ((collectStatsRates rawReset (some prevAt200)).Sample.NetRxRate =
      ((2 ^ 64 - (prevAt200.PrevNetRx - rawReset.NetRx) : ℕ) : ℚ) /
        (rawReset.Timestamp - prevAt200.Sample.Timestamp) ∧
    0 < (collectStatsRates rawReset (some prevAt200)).Sample.NetRxRate) ∧
    ((collectStatsRates rawReset (some prevAt200)).Sample.BlockReadRate =
      ((2 ^ 64 - (prevAt200.PrevBlockRd - rawReset.BlockRead) : ℕ) : ℚ) /
        (rawReset.Timestamp - prevAt200.Sample.Timestamp) ∧
    0 < (collectStatsRates rawReset (some prevAt200)).Sample.BlockReadRate) :=
  ⟨C8_rate_computation.2.2.2.2.2.2.1 rawReset prevAt200 (by norm_num [prevAt200])
      (by norm_num [rawReset, prevAt200, zeroSample]) (by norm_num [rawReset, prevAt200])
      (by norm_num [prevAt200]),
   C8_rate_computation.2.2.2.2.2.2.2.2.1 rawReset prevAt200 (by norm_num [prevAt200])
      (by norm_num [rawReset, prevAt200, zeroSample]) (by norm_num [rawReset, prevAt200])
      (by norm_num [prevAt200])⟩

/-- The loop of `splitIntoSessions` emits exactly the segments delimited
by the gap boundaries in its remaining index range. -/
theorem splitGo_eq (data : ContainerData) (g : ℚ) (fuel : ℕ) : ∀ (i start : ℕ),
    splitGo data g fuel i start =
      sessionsOfBounds data start
        ((List.range' i fuel).filter (fun j => decide (tsOf data j - tsOf data (j - 1) > g))) := by
  induction fuel with
  | zero => intro i start; rfl
  | succ fuel ih =>
    intro i start
    simp only [splitGo]
    rw [List.range'_succ, List.filter_cons]
    by_cases hB : tsOf data i - tsOf data (i - 1) > g
    · rw [if_pos hB, if_pos (decide_eq_true hB)]
      simp only [sessionsOfBounds]
      rw [ih]
    · rw [if_neg hB, if_neg (by simp [hB])]
      rw [ih]

/-- `splitIntoSessions` produces the segments delimited by the gap
boundaries, starting at index 0: a session boundary lies between samples
`i − 1` and `i` exactly when their gap exceeds the threshold, and never
before the first sample. -/
theorem splitIntoSessions_char (data : ContainerData) (h : data.Samples ≠ []) :
    splitIntoSessions data = sessionsOfBounds data 0 (gapBoundaries data) := by
  have hlen : ¬ data.Samples.length = 0 := fun hc => h (List.length_eq_zero.mp hc)
  unfold splitIntoSessions
  rw [if_neg hlen, splitGo_eq]
  rfl

theorem sessionsOfBounds_ne_nil (data : ContainerData) (start : ℕ) (bs : List ℕ) :
    sessionsOfBounds data start bs ≠ [] := by
  cases bs <;> simp [sessionsOfBounds]

theorem getLast?_cons_ne {α : Type} (a : α) (l : List α) (h : l ≠ []) :
    (a :: l).getLast? = l.getLast? := by
  cases l with
  | nil => exact absurd rfl h
  | cons b t => exact List.getLast?_cons_cons

/-- The last segment starts at the last boundary (or 0 when there is
none) and ends at the final sample. -/
theorem sessionsOfBounds_getLast (data : ContainerData) (bs : List ℕ) : ∀ start : ℕ,
    (sessionsOfBounds data start bs).getLast? =
      some (mkSession data (bs.getLastD start) (data.Samples.length - 1)) := by
  induction bs with
  | nil => intro start; rfl
  | cons b rest ih =>
    intro start
    show (mkSession data start (b - 1) :: sessionsOfBounds data b rest).getLast? = _
    rw [getLast?_cons_ne _ _ (sessionsOfBounds_ne_nil data b rest), ih b,
      List.getLastD_cons]

/-- The descending scan of `filterToCurrentSession` finds the largest
boundary index (or 0 when there is none). -/
theorem findSessionStart_eq (data : ContainerData) (g : ℚ) (m : ℕ) :
    findSessionStart data g m =
      ((List.range' 1 m).filter
        (fun j => decide (tsOf data j - tsOf data (j - 1) > g))).getLastD 0 := by
  induction m with
  | zero => rfl
  | succ m ih =>
    have hconcat : List.range' 1 (m + 1) = List.range' 1 m ++ [1 + m] := by
      have h : List.range' 1 (m + 1) = List.range' 1 m ++ [1 + 1 * m] := List.range'_concat 1 m
      simpa using h
    rw [hconcat, List.filter_append]
    simp only [findSessionStart]
    by_cases hB : tsOf data (m + 1) - tsOf data m > g
    · have hd : (decide (tsOf data (1 + m) - tsOf data (1 + m - 1) > g)) = true := by
        rw [Nat.add_comm 1 m, Nat.add_sub_cancel]
        exact decide_eq_true hB
      rw [if_pos hB]
      simp only [List.filter_cons, List.filter_nil, hd, if_true, List.getLastD_concat]
      omega
    · have hd : (decide (tsOf data (1 + m) - tsOf data (1 + m - 1) > g)) = false := by
        rw [Nat.add_comm 1 m, Nat.add_sub_cancel]
        simp [hB]
      rw [if_neg hB]
      simp only [List.filter_cons, List.filter_nil, hd, Bool.false_eq_true, if_false,
        List.append_nil]
      exact ih

theorem getLastD_mem {α : Type} (l : List α) (d : α) (h : l ≠ []) : l.getLastD d ∈ l := by
  induction l generalizing d with
  | nil => exact absurd rfl h
  | cons a t ih =>
    rw [List.getLastD_cons]
    cases t with
    | nil => simp
    | cons b t2 => exact List.mem_cons_of_mem a (ih a (by simp))

/-- Every gap boundary lies strictly inside the sample index range. -/
theorem gapBoundaries_mem (data : ContainerData) (b : ℕ) (hb : b ∈ gapBoundaries data) :
    1 ≤ b ∧ b < 1 + (data.Samples.length - 1) := by
  unfold gapBoundaries at hb
  have hm := (List.mem_filter.mp hb).1
  rw [List.mem_range'] at hm
  obtain ⟨i, hi, rfl⟩ := hm
  omega

/-- A sample carrying only a timestamp. -/
def tSample (t : ℚ) : Sample := { zeroSample with Timestamp := t }

/-- The spec's session-boundary scenario: interval 5 s, samples at
t = 0, 5, 10, 120, 125. -/
def exSessionData : ContainerData :=
  { Limits := ⟨0, 0, 0, 0, 0, 0⟩
    Interval := 5
    Samples := [tSample 0, tSample 5, tSample 10, tSample 120, tSample 125]
    Summary := none }

theorem exSession_ts0 : tsOf exSessionData 0 = 0 := rfl

theorem exSession_boundaries : gapBoundaries exSessionData = [3] := by
  have hb1 : isGapBoundary exSessionData 1 = false := by
    simp only [isGapBoundary, decide_eq_false_iff_not, tsOf, exSessionData, tSample,
      maxGapOf, zeroSample, not_lt, List.getD_cons_zero, List.getD_cons_succ]
    norm_num
  have hb2 : isGapBoundary exSessionData 2 = false := by
    simp only [isGapBoundary, decide_eq_false_iff_not, tsOf, exSessionData, tSample,
      maxGapOf, zeroSample, not_lt, List.getD_cons_zero, List.getD_cons_succ]
    norm_num
  have hb3 : isGapBoundary exSessionData 3 = true := by
    simp only [isGapBoundary, decide_eq_true_eq, tsOf, exSessionData, tSample,
      maxGapOf, zeroSample, List.getD_cons_zero, List.getD_cons_succ]
    norm_num
  have hb4 : isGapBoundary exSessionData 4 = false := by
    simp only [isGapBoundary, decide_eq_false_iff_not, tsOf, exSessionData, tSample,
      maxGapOf, zeroSample, not_lt, List.getD_cons_zero, List.getD_cons_succ]
    norm_num
  have hrange : List.range' 1 (exSessionData.Samples.length - 1) = [1, 2, 3, 4] := rfl
  unfold gapBoundaries
  rw [hrange]
  simp [List.filter_cons, hb1, hb2, hb3, hb4]

theorem exSession_eval :
    splitIntoSessions exSessionData = [⟨0, 0, 10, 3⟩, ⟨120, 120, 125, 2⟩] := by
  rw [splitIntoSessions_char exSessionData (by simp [exSessionData]), exSession_boundaries]
  show [mkSession exSessionData 0 2, mkSession exSessionData 3 4] = _
  have h1 : mkSession exSessionData 0 2 = ⟨0, 0, 10, 3⟩ := by
    simp only [mkSession, tsOf, exSessionData, tSample, zeroSample, List.getD_cons_zero,
      List.getD_cons_succ]
    norm_num
  have h2 : mkSession exSessionData 3 4 = ⟨120, 120, 125, 2⟩ := by
    simp only [mkSession, tsOf, exSessionData, tSample, zeroSample, List.getD_cons_zero,
      List.getD_cons_succ]
    norm_num
  rw [h1, h2]

/-- C6: session segmentation splits the series exactly at the
consecutive-sample gaps exceeding `2·interval + 5` seconds (never before
the first sample); a single-sample series yields exactly one session;
interval 5 with samples at t = 0, 5, 10, 120, 125 yields the two
sessions {0,5,10} and {120,125}; and the current-session view keeps
exactly the samples of the last segment. -/
theorem C6_session_segmentation :
    (∀ data : ContainerData, data.Samples ≠ [] →
      splitIntoSessions data = sessionsOfBounds data 0 (gapBoundaries data)) ∧
    (∀ data : ContainerData, data.Samples.length = 1 →
      splitIntoSessions data = [⟨⌊tsOf data 0⌋, tsOf data 0, tsOf data 0, 1⟩]) ∧
    splitIntoSessions exSessionData = [⟨0, 0, 10, 3⟩, ⟨120, 120, 125, 2⟩] ∧
    (∀ (data : ContainerData) (sess : SessionInfo), data.Samples ≠ [] →
      (splitIntoSessions data).getLast? = some sess →
      sess.SampleCount ≤ data.Samples.length ∧
      filterToCurrentSessionSamples data =
        data.Samples.drop (data.Samples.length - sess.SampleCount)) := by
  refine ⟨splitIntoSessions_char, ?_, exSession_eval, ?_⟩
  · intro data h1
    have hne : data.Samples ≠ [] := by
      intro hc
      rw [hc] at h1
      simp at h1
    rw [splitIntoSessions_char data hne]
    have hbe : gapBoundaries data = [] := by
      unfold gapBoundaries
      rw [h1]
      rfl
    rw [hbe]
    show [mkSession data 0 (data.Samples.length - 1)] = _
    rw [h1]
    simp [mkSession]
  · intro data sess hne hlast
    have hlen : ¬ data.Samples.length = 0 := fun hc => hne (List.length_eq_zero.mp hc)
    rw [splitIntoSessions_char data hne, sessionsOfBounds_getLast] at hlast
    obtain rfl := (Option.some.inj hlast).symm
    set B := (gapBoundaries data).getLastD 0 with hBdef
    have hBle : B ≤ data.Samples.length - 1 := by
      by_cases hnil : gapBoundaries data = []
      · rw [hBdef, hnil]
        simp
      · have hmem := getLastD_mem _ 0 hnil
        have := gapBoundaries_mem data _ hmem
        omega
    have hcount : (mkSession data B (data.Samples.length - 1)).SampleCount =
        data.Samples.length - B := by
      simp only [mkSession]
      omega
    constructor
    · rw [hcount]
      omega
    · rw [hcount]
      have hdropidx : data.Samples.length - (data.Samples.length - B) = B := by omega
      rw [hdropidx]
      have hfs : filterToCurrentSessionSamples data =
          data.Samples.drop
            (findSessionStart data (maxGapOf data) (data.Samples.length - 1)) := by
        unfold filterToCurrentSessionSamples
        rw [if_neg hlen]
        by_cases hpos : findSessionStart data (maxGapOf data) (data.Samples.length - 1) > 0
        · rw [if_pos hpos]
        · rw [if_neg hpos]
          have h0 : findSessionStart data (maxGapOf data) (data.Samples.length - 1) = 0 := by
            omega
          rw [h0, List.drop_zero]
      rw [hfs, findSessionStart_eq]
      rfl

/-- Witness for C6 at the t = 0, 5, 10, 120, 125 scenario. -/
theorem C6_session_segmentation_witness :
    splitIntoSessions exSessionData =
      sessionsOfBounds exSessionData 0 (gapBoundaries exSessionData) ∧
    ((⟨120, 120, 125, 2⟩ : SessionInfo).SampleCount ≤ exSessionData.Samples.length ∧
      filterToCurrentSessionSamples exSessionData =
        exSessionData.Samples.drop
          (exSessionData.Samples.length - (⟨120, 120, 125, 2⟩ : SessionInfo).SampleCount)) :=
  ⟨C6_session_segmentation.1 exSessionData (List.cons_ne_nil _ _),
   C6_session_segmentation.2.2.2 exSessionData ⟨120, 120, 125, 2⟩ (List.cons_ne_nil _ _)
     (by rw [C6_session_segmentation.2.2.1]; rfl)⟩

/-- A proxy container (nginx image, no label) attached only to a network
the target does not share. -/
def proxyOffNet : GoContainer :=
  ⟨"proxy1", "nginx:1.25", ["/edge"], [], [⟨"othernet", "10.9.0.7", ""⟩]⟩

/-- A container labeled `mdok.proxy=false` whose image contains
`nginx`. -/
def nginxLabeledFalse : GoContainer :=
  ⟨"web1", "nginx:latest", ["/web"], [("mdok.proxy", "false")], [⟨"appnet", "10.0.0.3", ""⟩]⟩

/-- C9: in peer-set construction, the addresses of every
proxy-classified container other than the target are collected into
`proxyIPs` regardless of network membership; `containerIPs` holds
exactly the addresses of non-proxy containers sharing a network with the
target (so proxy addresses enter it only through a non-proxy container);
and an explicit `mdok.proxy=false` label overrides image/name pattern
matching. -/
theorem C9_proxy_peer_sets :
    (∀ (targetID : String) (targetNetworks : List String)
        (containers : List GoContainer) (ip : String),
      (ip ∈ (getContainerIPs targetID targetNetworks containers).2 ↔
        ∃ c, c ∈ containers ∧ c.ID ≠ targetID ∧ isProxyContainer c = true ∧
          ip ∈ addrsOf c) ∧
      (ip ∈ (getContainerIPs targetID targetNetworks containers).1 ↔
        ∃ c, c ∈ containers ∧ c.ID ≠ targetID ∧ isProxyContainer c = false ∧
          sharesNetwork targetNetworks c = true ∧ ip ∈ addrsOf c)) ∧
    (∀ (c : GoContainer) (v : String), labelOf c proxyLabelKey = some v →
      equalFold v "false" = true → isProxyContainer c = false) := by
  constructor
  · intro targetID targetNetworks containers ip
    constructor
    · simp only [getContainerIPs, List.mem_flatMap, List.mem_filter, Bool.and_eq_true,
        bne_iff_ne, ne_eq]
      constructor
      · rintro ⟨c, ⟨hc, hid, hproxy⟩, hip⟩
        exact ⟨c, hc, hid, hproxy, hip⟩
      · rintro ⟨c, hc, hid, hproxy, hip⟩
        exact ⟨c, ⟨hc, hid, hproxy⟩, hip⟩
    · simp only [getContainerIPs, List.mem_flatMap, List.mem_filter, Bool.and_eq_true,
        bne_iff_ne, ne_eq, Bool.not_eq_true']
      constructor
      · rintro ⟨c, ⟨hc, ⟨hid, hproxy⟩, hshare⟩, hip⟩
        exact ⟨c, hc, hid, hproxy, hshare, hip⟩
      · rintro ⟨c, hc, hid, hproxy, hshare, hip⟩
        exact ⟨c, ⟨hc, ⟨hid, hproxy⟩, hshare⟩, hip⟩
  · intro c v hl hf
    unfold isProxyContainer
    rw [hl]
    simp [hf]

/-- Witness for C9: the off-network proxy's address lands in `proxyIPs`
of a target sharing no network with it, and the `mdok.proxy=false` label
overrides the nginx image pattern. -/
theorem C9_proxy_peer_sets_witness :
    "10.9.0.7" ∈ (getContainerIPs "target" ["appnet"] [proxyOffNet]).2 ∧
    isProxyContainer nginxLabeledFalse = false :=
  ⟨(C9_proxy_peer_sets.1 "target" ["appnet"] [proxyOffNet] "10.9.0.7").1.mpr
      ⟨proxyOffNet, by simp, by decide, by decide, by decide⟩,
   C9_proxy_peer_sets.2 nginxLabeledFalse "false" rfl (by decide)⟩

end Mdok
